import Mathlib

/-!
# Verification of the candidate-selection pipeline

A shallow embedding, in Lean 4, of the core of the masis chrome extension's
candidate-selection pipeline:

* the `EmbeddingCache` LRU/TTL cache (`src/lib/clip/cache.ts`),
* the pure similarity functions (`src/lib/clip/similarity.ts`),
* the CLIP filtering orchestration (`src/lib/clip/filter.ts`),
* the fuzzy folder matcher (`background/folder-matcher.js`),
* the unified-select API route's stage 2 (NSFW gating), stage 2.5
  (CLIP narrowing) and stage 3 (LLM prompt construction).

Modelling conventions:

* A JavaScript `Map` is modelled as an association list in insertion order
  (head = oldest).  `Map.get` returns the first binding, `Map.delete`
  removes the first binding, and `Map.set` updates an existing binding *in
  place* (JavaScript `Map.set` does not change a key's position in the
  iteration order) or else appends at the end.
* JavaScript numbers used for timestamps and TTLs are modelled as `ℚ`
  (all values arising in the code are exact decimals); vector components
  are modelled as elements of a linear ordered field, instantiated with
  `ℝ` in the theorems, and `Math.sqrt` is passed in as a parameter and
  instantiated with `Real.sqrt`.
* `Array.prototype.sort` with comparator `(a, b) => b.score - a.score` is
  a stable descending sort by score (stable since ES2019); it is modelled
  by the stable insertion sort `stableSortDesc`, which is extensionally
  the unique stable descending sort.
* Thrown exceptions are modelled with `Except String`; `try`/`catch`
  blocks turn an `Except.error` into the code's failure result.
-/

namespace Masis

/-! ## Data model (§3 of the spec; shapes used by the route and filter) -/

/-- An image record as carried through the route: `_id`, `tags` (flattened
to their names, as the code does with `typeof t === 'object' ? t.name : t`),
`nsfwLevel`, and the two URL fields read by `filter.ts`
(`image.imageUrl || image.thumbnail`).  A missing URL is modelled by `""`. -/
structure Image where
  _id : String
  tags : List String
  nsfwLevel : String
  imageUrl : String
  thumbnail : String
deriving DecidableEq, Repr

/-- A per-character folder as it flows through the unified-select route:
its display name, the character name it was matched to in stage 2-1, and
its images. -/
structure Folder where
  name : String
  matchedCharacterName : String
  images : List Image
deriving DecidableEq, Repr

/-! ## Stage 2 NSFW filtering (route, "2-2. NSFW 레벨로 이미지 필터링") -/

/-- The allowed sensitivity buckets for a determined level, from the route:
`appropriateNsfwLevel === 'general' || appropriateNsfwLevel === 'sensitive'
? ['general', 'sensitive'] : [appropriateNsfwLevel]`. -/
def allowedLevels (appropriateNsfwLevel : String) : List String :=
  if appropriateNsfwLevel = "general" ∨ appropriateNsfwLevel = "sensitive" then
    ["general", "sensitive"]
  else
    [appropriateNsfwLevel]

/-- Stage 2 per-folder image filtering:
`folder.images.filter(img => allowedLevels.includes(img.nsfwLevel))`,
keeping the rest of the folder unchanged (`{...folder, images: filteredImages}`). -/
def filterFolderImages (appropriateNsfwLevel : String) (folder : Folder) : Folder :=
  { folder with
    images :=
      folder.images.filter
        (fun img => (allowedLevels appropriateNsfwLevel).contains img.nsfwLevel) }

/-- Stage 2 over the matched folder list (`matchedFolders.map(...)`). -/
def stage2Filter (appropriateNsfwLevel : String) (folders : List Folder) : List Folder :=
  folders.map (filterFolderImages appropriateNsfwLevel)

/-- The allowed set exactly as the spec describes it: `general` and
`sensitive` collapse to the single bucket `{general, sensitive}`, while
`questionable` and `explicit` are singleton buckets.  Used to check the
route's `allowedLevels` against the spec's wording. -/
def specAllowedSet (level : String) : List String :=
  match level with
  | "general" => ["general", "sensitive"]
  | "sensitive" => ["general", "sensitive"]
  | "questionable" => ["questionable"]
  | "explicit" => ["explicit"]
  | other => [other]

/-! ## EmbeddingCache (`src/lib/clip/cache.ts`)

The cache is generic in the stored payload `α` (the source stores
`Embedding = number[]`; the cache never inspects the vector, so the claims
are stated for an arbitrary payload type). -/

/-- The `type` half of a cache key (`'text' | 'image'`). -/
inductive CacheKeyType where
  | text
  | image
deriving DecidableEq, Repr

/-- The string the source interpolates for the key's `type`. -/
def CacheKeyType.raw : CacheKeyType → String
  | .text => "text"
  | .image => "image"

/-- `CacheKey = { type, value }`. -/
structure CacheKey where
  type : CacheKeyType
  value : String
deriving DecidableEq, Repr

/-- `createCacheKey(key) = `${key.type}:${key.value}``. -/
def createCacheKey (key : CacheKey) : String :=
  key.type.raw ++ ":" ++ key.value

/-- `CacheEntry`: the stored vector, its creation time (`Date.now()`,
milliseconds) and its TTL in seconds. -/
structure CacheEntry (α : Type) where
  embedding : α
  createdAt : ℚ
  ttl : ℚ
deriving DecidableEq, Repr

/-- `Map.prototype.get`: the binding of the first matching key. -/
def mapGet {α : Type} : List (String × CacheEntry α) → String → Option (CacheEntry α)
  | [], _ => none
  | (k', e) :: t, k => if k' = k then some e else mapGet t k

/-- `Map.prototype.delete`'s effect on the store: remove the first
matching binding (a JS `Map` holds each key at most once). -/
def mapDelete {α : Type} : List (String × CacheEntry α) → String → List (String × CacheEntry α)
  | [], _ => []
  | (k', e) :: t, k => if k' = k then t else (k', e) :: mapDelete t k

/-- `Map.prototype.set`: update an existing binding in place (keeping the
key's position in the iteration order, as JS `Map.set` does) or append a
new binding at the end. -/
def mapSet {α : Type} : List (String × CacheEntry α) → String → CacheEntry α →
    List (String × CacheEntry α)
  | [], k, e => [(k, e)]
  | (k', e') :: t, k, e => if k' = k then (k, e) :: t else (k', e') :: mapSet t k e

/-- The `EmbeddingCache` class state: its `Map` (insertion order, head =
oldest), `maxSize` and `defaultTTL`. -/
structure EmbeddingCache (α : Type) where
  cache : List (String × CacheEntry α)
  maxSize : ℕ
  defaultTTL : ℚ
deriving DecidableEq, Repr

namespace EmbeddingCache

/-- The constructor: `maxSize = options.maxSize || 1000`,
`defaultTTL = options.defaultTTL || 3600` (JS `||` replaces the falsy `0`
by the default). -/
def new (α : Type) (maxSize? : Option ℕ) (defaultTTL? : Option ℚ) : EmbeddingCache α :=
  { cache := []
    maxSize := match maxSize? with
      | some n => if n = 0 then 1000 else n
      | none => 1000
    defaultTTL := match defaultTTL? with
      | some t => if t = 0 then 3600 else t
      | none => 3600 }

/-- `get(key)`: miss on absent key; on `(now - createdAt) / 1000 > ttl`
delete the entry and miss; otherwise delete-and-reinsert the entry (the
LRU touch moving it to the back) and return its vector.  `now` stands for
`Date.now()`. -/
def get {α : Type} (c : EmbeddingCache α) (now : ℚ) (key : CacheKey) :
    Option α × EmbeddingCache α :=
  let cacheKey := createCacheKey key
  match mapGet c.cache cacheKey with
  | none => (none, c)
  | some entry =>
    let age := (now - entry.createdAt) / 1000
    if age > entry.ttl then
      (none, { c with cache := mapDelete c.cache cacheKey })
    else
      (some entry.embedding,
       { c with cache := mapSet (mapDelete c.cache cacheKey) cacheKey entry })

/-- `set(key, embedding, ttl?)`: if `size >= maxSize`, evict the first key
(`cache.keys().next().value`, guarded by the truthiness test
`if (firstKey)`, so an empty-string first key would not be evicted); then
store `{embedding, createdAt: now, ttl: ttl ?? defaultTTL}` under the key. -/
def set {α : Type} (c : EmbeddingCache α) (now : ℚ) (key : CacheKey) (embedding : α)
    (ttl? : Option ℚ) : EmbeddingCache α :=
  let cacheKey := createCacheKey key
  let afterEvict :=
    if c.maxSize ≤ c.cache.length then
      match c.cache with
      | [] => c.cache
      | (firstKey, _) :: _ => if firstKey = "" then c.cache else mapDelete c.cache firstKey
    else c.cache
  let entry : CacheEntry α :=
    { embedding := embedding, createdAt := now, ttl := ttl?.getD c.defaultTTL }
  { c with cache := mapSet afterEvict cacheKey entry }

/-- `delete(key)`: returns whether the key was present and removes it. -/
def del {α : Type} (c : EmbeddingCache α) (key : CacheKey) : Bool × EmbeddingCache α :=
  let cacheKey := createCacheKey key
  ((mapGet c.cache cacheKey).isSome, { c with cache := mapDelete c.cache cacheKey })

/-- `clear()`. -/
def clear {α : Type} (c : EmbeddingCache α) : EmbeddingCache α :=
  { c with cache := [] }

/-- `size` (getter): the number of stored entries. -/
def size {α : Type} (c : EmbeddingCache α) : ℕ :=
  c.cache.length

end EmbeddingCache

/-- One public cache operation, for reasoning about arbitrary operation
sequences.  `get`/`set` carry the `Date.now()` value observed during the
call. -/
inductive CacheOp (α : Type) where
  | get (now : ℚ) (key : CacheKey)
  | set (now : ℚ) (key : CacheKey) (embedding : α) (ttl? : Option ℚ)
  | del (key : CacheKey)
  | clear

/-- Apply one operation to the cache state. -/
def applyOp {α : Type} (c : EmbeddingCache α) : CacheOp α → EmbeddingCache α
  | .get now key => (c.get now key).2
  | .set now key embedding ttl? => c.set now key embedding ttl?
  | .del key => (c.del key).2
  | .clear => c.clear

/-- Run a sequence of operations. -/
def runOps {α : Type} (c : EmbeddingCache α) (ops : List (CacheOp α)) : EmbeddingCache α :=
  ops.foldl applyOp c

end Masis

namespace Masis

/-! ## Stable descending sort

Both `background/folder-matcher.js` and `src/lib/clip/similarity.ts` sort
with `arr.sort((a, b) => b.score - a.score)`: a stable sort, descending in
the score.  A stable sort for a total preorder is extensionally unique, so
it is modelled by a stable insertion sort: an element is inserted behind
every earlier element with a strictly larger key and in front of the first
element with an equal-or-smaller key (preserving the original relative
order of equal keys). -/

/-- Insert `x` into a descending-sorted list, behind strictly larger keys. -/
def insertDesc {α β : Type} [LinearOrder β] (key : α → β) (x : α) :
    List α → List α
  | [] => [x]
  | y :: ys => if key x < key y then y :: insertDesc key x ys else x :: y :: ys

/-- Stable descending sort by `key` (model of
`arr.sort((a, b) => key(b) - key(a))`). -/
def stableSortDesc {α β : Type} [LinearOrder β] (key : α → β) (l : List α) : List α :=
  l.foldr (insertDesc key) []

/-- The first element attaining the maximal key (ties broken by input
order, first-seen wins).  This follows the spec's description of the
matcher's tie-breaking; it is proved equal to the head of the stable
descending sort. -/
def firstMaxBy {α β : Type} [LinearOrder β] (key : α → β) : List α → Option α
  | [] => none
  | x :: xs =>
    match firstMaxBy key xs with
    | none => some x
    | some m => if key x < key m then some m else some x

/-! ## Folder matcher (`background/folder-matcher.js`) -/

/-- A folder as returned by the search API (`FolderInfo`): only `_id` and
`name` are read by `selectBestMatch`. -/
structure FolderInfo where
  _id : String
  name : String
deriving DecidableEq, Repr

/-- `String.prototype.toLowerCase`, modelled character-wise with Lean's
`Char.toLower` (the two agree on ASCII, and both leave Hangul and the
other characters appearing here unchanged). -/
def toLowerCase (s : String) : String :=
  ⟨s.data.map Char.toLower⟩

/-- `String.prototype.includes` on character lists: does `hay` contain
`needle` as a contiguous substring? -/
def charsIncludes (needle : List Char) : List Char → Bool
  | [] => needle.isEmpty
  | c :: t => needle.isPrefixOf (c :: t) || charsIncludes needle t

/-- `String.prototype.split(/\s+/)` core: fields are the maximal runs of
non-whitespace characters; a leading (resp. trailing) whitespace run
contributes a leading (resp. trailing) empty field, as in JavaScript.
`acc` holds the current field reversed. -/
def splitWsCore (acc : List Char) : List Char → List (List Char)
  | [] => [acc.reverse]
  | c :: t =>
    if c.isWhitespace then
      acc.reverse :: splitWsCore [] (t.dropWhile Char.isWhitespace)
    else
      splitWsCore (c :: acc) t
termination_by l => l.length
decreasing_by
  · exact Nat.lt_succ_of_le (List.Sublist.length_le (List.dropWhile_sublist _))
  · simp

/-- `s.split(/\s+/)` on a character list. -/
def splitWs (s : List Char) : List (List Char) :=
  splitWsCore [] s

/-- The word-overlap count of the matcher's fourth scoring branch:
`charWords.filter(word => folderWords.includes(word)).length`, with both
names already lowercased. -/
def sharedWordCount (lowerCharName lowerFolderName : List Char) : ℕ :=
  let charWords := splitWs lowerCharName
  let folderWords := splitWs lowerFolderName
  (charWords.filter (fun word => folderWords.contains word)).length

/-- The matcher's score of one folder name against the query name
(`selectBestMatch`'s scoring):  case-insensitive; 1000 for equality, 900
for substring containment, 850 for prefix, otherwise `700 + 50 ×` the
shared-word count; minus `2 ×` the absolute length difference in every
case.  Lengths are character counts (the JS code counts UTF-16 units;
these agree on all non-astral characters). -/
def matchScore (folderName characterName : String) : ℤ :=
  let lowerFolderName := toLowerCase folderName
  let lowerCharName := toLowerCase characterName
  let base : ℤ :=
    if lowerFolderName = lowerCharName then 1000
    else if charsIncludes lowerCharName.toList lowerFolderName.toList then 900
    else if lowerCharName.toList.isPrefixOf lowerFolderName.toList then 850
    else 700 + 50 * (sharedWordCount lowerCharName.toList lowerFolderName.toList : ℤ)
  base - 2 * |(lowerFolderName.length : ℤ) - (lowerCharName.length : ℤ)|

/-- A scored folder (`{ folder, score }`). -/
structure ScoredFolder where
  folder : FolderInfo
  score : ℤ
deriving DecidableEq, Repr

/-- `selectBestMatch(folders, characterName)`: `null` on an empty list;
otherwise score every folder, sort descending by score (stable) and
return the first folder. -/
def selectBestMatch (folders : List FolderInfo) (characterName : String) :
    Option FolderInfo :=
  match folders with
  | [] => none
  | _ :: _ =>
    let scored := folders.map
      (fun folder => ScoredFolder.mk folder (matchScore folder.name characterName))
    (stableSortDesc (fun s => s.score) scored).head?.map (fun s => s.folder)

/-! ## Similarity functions (`src/lib/clip/similarity.ts`)

JavaScript numbers are idealised as a linear ordered field `R`
(instantiated with `ℝ` in the theorems); `Math.sqrt` is a parameter
(instantiated with `Real.sqrt`). -/

/-- `computeMagnitude(vector) = Math.sqrt(vector.reduce((sum, val) => sum + val * val, 0))`. -/
def computeMagnitude {R : Type} [LinearOrderedField R] (sqrt : R → R)
    (vector : List R) : R :=
  sqrt (vector.foldl (fun sum val => sum + val * val) 0)

/-- `computeDotProduct(vec1, vec2)`: throws on a length mismatch, else the
sum of pointwise products (`vec1.reduce((sum, val, idx) => sum + val * vec2[idx], 0)`). -/
def computeDotProduct {R : Type} [LinearOrderedField R] (vec1 vec2 : List R) :
    Except String R :=
  if vec1.length ≠ vec2.length then
    .error ("Vector dimensions must match: " ++ toString vec1.length ++ " vs "
      ++ toString vec2.length)
  else
    .ok (List.zipWith (· * ·) vec1 vec2).sum

/-- `computeCosineSimilarity(embedding1, embedding2)`: throws on a length
mismatch; returns 0 if either magnitude is exactly 0; otherwise
`Math.max(0, dotProduct / (mag1 * mag2))`. -/
def computeCosineSimilarity {R : Type} [LinearOrderedField R] (sqrt : R → R)
    (embedding1 embedding2 : List R) : Except String R :=
  if embedding1.length ≠ embedding2.length then
    .error ("Embedding dimensions must match: " ++ toString embedding1.length
      ++ " vs " ++ toString embedding2.length)
  else
    let mag1 := computeMagnitude sqrt embedding1
    let mag2 := computeMagnitude sqrt embedding2
    if mag1 = 0 ∨ mag2 = 0 then
      .ok 0
    else
      match computeDotProduct embedding1 embedding2 with
      | .error e => .error e
      | .ok dotProduct => .ok (max 0 (dotProduct / (mag1 * mag2)))

/-- The value `computeCosineSimilarity` returns when the dimensions match,
as a total function (used to state what stage 2.5 ranks by). -/
def cosineSimilarityValue {R : Type} [LinearOrderedField R] (sqrt : R → R)
    (embedding1 embedding2 : List R) : R :=
  let mag1 := computeMagnitude sqrt embedding1
  let mag2 := computeMagnitude sqrt embedding2
  if mag1 = 0 ∨ mag2 = 0 then 0
  else max 0 ((List.zipWith (· * ·) embedding1 embedding2).sum / (mag1 * mag2))

/-- `sortBySimilarity(items, scores)`: throws on a length mismatch, else
pairs items with scores and stable-sorts descending by score. -/
def sortBySimilarity {R : Type} [LinearOrderedField R] {α : Type}
    (items : List α) (scores : List R) : Except String (List (α × R)) :=
  if items.length ≠ scores.length then
    .error "Items and scores arrays must have the same length"
  else
    .ok (stableSortDesc Prod.snd (items.zip scores))

/-! ## CLIP filtering (`src/lib/clip/filter.ts` and route stage 2.5)

The external embedding service together with the embedding cache is
abstracted as an oracle `embedOf : String → Option (List R)` (the result
of `getImageEmbedding` for a URL) and an already-fetched
`textEmbedding? : Option (List R)` (the result of `getTextEmbedding`);
`none` models a failed fetch. -/

/-- One entry of `ClipFilterResult.topImages` (`ImageSimilarity`). -/
structure ImageSimilarity (R : Type) where
  imageId : String
  similarity : R
  image : Image

/-- `ClipFilterResult` (the `cacheHits` statistic, which depends on the
cache state and not on the filtering result, is not modelled). -/
structure ClipFilterResult (R : Type) where
  success : Bool
  topImages : List (ImageSimilarity R)
  totalProcessed : ℕ
  error? : Option String

/-- `const imageUrl = image.imageUrl || image.thumbnail` (a missing field
is modelled by `""`). -/
def imageUrlOf (image : Image) : String :=
  if image.imageUrl ≠ "" then image.imageUrl else image.thumbnail

/-- The per-image loop of `filterImagesBySimilarity`: skip images without
a URL and images whose embedding fetch fails; compute the cosine
similarity against the text embedding (a thrown dimension mismatch
propagates as `.error`, to be caught by the surrounding `try`); keep
entries with `similarity >= minSimilarity`. -/
def collectSimilarities {R : Type} [LinearOrderedField R] (sqrt : R → R)
    (embedOf : String → Option (List R)) (textEmbedding : List R)
    (minSimilarity : R) : List Image → Except String (List (ImageSimilarity R))
  | [] => .ok []
  | image :: rest =>
    let imageUrl := imageUrlOf image
    if imageUrl = "" then
      collectSimilarities sqrt embedOf textEmbedding minSimilarity rest
    else
      match embedOf imageUrl with
      | none => collectSimilarities sqrt embedOf textEmbedding minSimilarity rest
      | some imageEmbedding =>
        match computeCosineSimilarity sqrt textEmbedding imageEmbedding with
        | .error e => .error e
        | .ok similarity =>
          match collectSimilarities sqrt embedOf textEmbedding minSimilarity rest with
          | .error e => .error e
          | .ok sims =>
            .ok (if minSimilarity ≤ similarity then
                   ImageSimilarity.mk image._id similarity image :: sims
                 else sims)

/-- `filterImagesBySimilarity(sceneText, images, {topK, minSimilarity})`:
fail if the text embedding could not be generated; collect per-image
similarities (any thrown error is caught into a failure result); sort
descending and keep the first `topK`. -/
def filterImagesBySimilarity {R : Type} [LinearOrderedField R] (sqrt : R → R)
    (embedOf : String → Option (List R)) (textEmbedding? : Option (List R))
    (images : List Image) (topK : ℕ) (minSimilarity : R) : ClipFilterResult R :=
  match textEmbedding? with
  | none =>
    ClipFilterResult.mk false [] 0 (some "Failed to generate text embedding")
  | some textEmbedding =>
    match collectSimilarities sqrt embedOf textEmbedding minSimilarity images with
    | .error e => ClipFilterResult.mk false [] 0 (some e)
    | .ok similarities =>
      match sortBySimilarity (similarities.map (fun s => s.image))
          (similarities.map (fun s => s.similarity)) with
      | .error e => ClipFilterResult.mk false [] 0 (some e)
      | .ok sorted =>
        ClipFilterResult.mk true
          ((sorted.take topK).map (fun p => ImageSimilarity.mk p.1._id p.2 p.1))
          similarities.length none

/-- Route stage 2.5, per folder: folders with at most 10 images skip CLIP
filtering unchanged; otherwise run `filterImagesBySimilarity` with
`{topK: 10, minSimilarity: 0.0}` and, on success with a non-empty result,
replace the folder's images with the top images; on failure keep the
folder unchanged. -/
def stage25Folder {R : Type} [LinearOrderedField R] (sqrt : R → R)
    (embedOf : String → Option (List R)) (textEmbedding? : Option (List R))
    (folder : Folder) : Folder :=
  let images := folder.images
  if images.length ≤ 10 then folder
  else
    let clipResult := filterImagesBySimilarity sqrt embedOf textEmbedding? images 10 0
    if clipResult.success && !clipResult.topImages.isEmpty then
      { folder with images := clipResult.topImages.map (fun item => item.image) }
    else folder

/-! ## Stage 3 prompt construction (`buildUnifiedPrompt`, route) -/

/-- The stage-1 analysis fields read by `buildUnifiedPrompt`. -/
structure SceneAnalysis where
  sceneSummary : String
  appropriateNsfwLevel : String
  reasoning : String
deriving DecidableEq, Repr

/-- `Array.prototype.join(sep)`. -/
def joinSep (sep : String) : List String → String
  | [] => ""
  | [s] => s
  | s :: rest => s ++ sep ++ joinSep sep rest

/-- One image line of the prompt:
`` `    Image ${imgIdx + 1} (ID: ${img._id}):\n      Tags: ${tags.join(', ')}` ``. -/
def imageBlock (imgIdx : ℕ) (img : Image) : String :=
  "    Image " ++ toString (imgIdx + 1) ++ " (ID: " ++ img._id ++ "):\n      Tags: "
    ++ joinSep ", " img.tags

/-- One folder block of the prompt: the character and folder names, the
image count, and the image lines joined by blank lines. -/
def folderBlock (folder : Folder) : String :=
  let imagesText := joinSep "\n\n" (folder.images.mapIdx (fun i img => imageBlock i img))
  "Character: \"" ++ folder.matchedCharacterName ++ "\" (Folder: \"" ++ folder.name
    ++ "\")\n  Total Images: " ++ toString folder.images.length ++ "\n\n" ++ imagesText

/-- The fixed prompt text before the folder blocks (with the scene
context spliced in). -/
def promptHeader (sceneAnalysis : SceneAnalysis) : String :=
  "# CHARACTER IMAGE SELECTION\n\n## SCENE CONTEXT:\n" ++ sceneAnalysis.sceneSummary
    ++ "\n\nNSFW Level: " ++ sceneAnalysis.appropriateNsfwLevel ++ "\nReasoning: "
    ++ sceneAnalysis.reasoning
    ++ "\n\n## AVAILABLE CHARACTERS AND IMAGES (already matched and filtered):\n"

/-- The fixed prompt text between the folder blocks and the instruction
about zero-image characters. -/
def promptFooterA : String :=
  "\n\n## YOUR TASK:\n\nFor EACH character above, select ONE best image based on:\n"
    ++ "- Scene context and what this character is doing\n- Mood and atmosphere\n"
    ++ "- Visual tags matching the scene\n\n## OUTPUT FORMAT:\nReturn JSON:\n\x7b\n"
    ++ "  \"characters\": [\n    \x7b\n      \"name\": \"character name\",\n"
    ++ "      \"folderName\": \"folder name\",\n      \"selectedImageId\": \"image ID\",\n"
    ++ "      \"selectedScore\": 85,\n      \"selectionReason\": \"why this image fits the scene\",\n"
    ++ "      \"status\": \"matched\"\n    \x7d\n  ]\n\x7d\n\nIMPORTANT:\n"
    ++ "- All characters have already been matched to folders\n"

/-- The prompt's instruction that delegates the `unmatched` outcome for
zero-image characters to the LLM itself. -/
def unmatchedInstruction : String :=
  "- If a character has 0 images, set status to \"unmatched\" and omit selectedImageId"

/-- The fixed prompt text after the zero-image instruction. -/
def promptFooterB : String :=
  "\n- Return results for ALL characters provided\n\n---\n\n"
    ++ "Now select the most appropriate image for each character from the filtered images."

/-- `buildUnifiedPrompt(text, characterFolders, sceneAnalysis)`: the full
stage-3 user prompt.  Every folder of `characterFolders` contributes one
block, regardless of its image count (the `text` parameter is accepted
but never spliced into the template, exactly as in the source). -/
def buildUnifiedPrompt (text : String) (characterFolders : List Folder)
    (sceneAnalysis : SceneAnalysis) : String :=
  let foldersText := joinSep "\n\n" (characterFolders.map folderBlock)
  promptHeader sceneAnalysis ++ foldersText ++ promptFooterA ++ unmatchedInstruction
    ++ promptFooterB

/-- Well-formedness of a cache state, true of every state reachable
through the public operations: keys are distinct (a JS `Map` property),
no key is the empty string (every stored key is a `createCacheKey`
result), the size is within the capacity, and the capacity is positive
(the constructor replaces `0` by the default `1000`). -/
def CacheWF {α : Type} (c : EmbeddingCache α) : Prop :=
  (c.cache.map Prod.fst).Nodup ∧
  (∀ k ∈ c.cache.map Prod.fst, k ≠ "") ∧
  c.cache.length ≤ c.maxSize ∧
  1 ≤ c.maxSize

/-! ## Lemmas about the `Map` model -/

theorem mapGet_eq_none_iff {α : Type} (m : List (String × CacheEntry α)) (k : String) :
    mapGet m k = none ↔ k ∉ m.map Prod.fst := by
  induction m with
  | nil => simp [mapGet]
  | cons p t ih =>
    obtain ⟨k', e⟩ := p
    by_cases h : k' = k
    · subst h; simp [mapGet]
    · have h' : ¬ k = k' := fun hh => h hh.symm
      simp [mapGet, h, ih, h']

theorem mapGet_mem {α : Type} {m : List (String × CacheEntry α)} {k : String}
    {e : CacheEntry α} (h : mapGet m k = some e) : (k, e) ∈ m := by
  induction m with
  | nil => simp [mapGet] at h
  | cons p t ih =>
    obtain ⟨k', e'⟩ := p
    by_cases hk : k' = k
    · subst hk
      simp [mapGet] at h
      simp [h]
    · simp [mapGet, hk] at h
      exact List.mem_cons_of_mem _ (ih h)

theorem length_mapDelete_of_mem {α : Type} {m : List (String × CacheEntry α)} {k : String}
    {e : CacheEntry α} (h : mapGet m k = some e) :
    (mapDelete m k).length + 1 = m.length := by
  induction m with
  | nil => simp [mapGet] at h
  | cons p t ih =>
    obtain ⟨k', e'⟩ := p
    by_cases hk : k' = k
    · subst hk; simp [mapDelete]
    · simp [mapGet, hk] at h
      simp [mapDelete, hk, ih h]

theorem length_mapDelete_le {α : Type} (m : List (String × CacheEntry α)) (k : String) :
    (mapDelete m k).length ≤ m.length := by
  induction m with
  | nil => simp [mapDelete]
  | cons p t ih =>
    obtain ⟨k', e'⟩ := p
    by_cases hk : k' = k
    · simp [mapDelete, hk]
    · simpa [mapDelete, hk] using ih

theorem length_mapSet_le {α : Type} (m : List (String × CacheEntry α)) (k : String)
    (e : CacheEntry α) : (mapSet m k e).length ≤ m.length + 1 := by
  induction m with
  | nil => simp [mapSet]
  | cons p t ih =>
    obtain ⟨k', e'⟩ := p
    by_cases hk : k' = k
    · simp [mapSet, hk]
    · simpa [mapSet, hk] using ih

theorem mapSet_of_absent {α : Type} {m : List (String × CacheEntry α)} {k : String}
    (e : CacheEntry α) (h : mapGet m k = none) : mapSet m k e = m ++ [(k, e)] := by
  induction m with
  | nil => simp [mapSet]
  | cons p t ih =>
    obtain ⟨k', e'⟩ := p
    by_cases hk : k' = k
    · subst hk; simp [mapGet] at h
    · simp [mapGet, hk] at h
      simp [mapSet, hk, ih h]

theorem mapGet_mapDelete_self {α : Type} {m : List (String × CacheEntry α)} {k : String}
    (hnd : (m.map Prod.fst).Nodup) : mapGet (mapDelete m k) k = none := by
  induction m with
  | nil => simp [mapDelete, mapGet]
  | cons p t ih =>
    obtain ⟨k', e'⟩ := p
    simp only [List.map_cons, List.nodup_cons] at hnd
    by_cases hk : k' = k
    · subst hk
      simpa [mapDelete, mapGet_eq_none_iff] using hnd.1
    · simp [mapDelete, hk, mapGet, ih hnd.2]

theorem mapGet_mapDelete_ne {α : Type} (m : List (String × CacheEntry α)) {k k' : String}
    (h : k' ≠ k) : mapGet (mapDelete m k) k' = mapGet m k' := by
  induction m with
  | nil => rfl
  | cons p t ih =>
    obtain ⟨k₀, e₀⟩ := p
    by_cases hk : k₀ = k
    · have hne : ¬ k₀ = k' := fun hh => h (hh ▸ hk)
      have hsym : ¬ k = k' := fun hh => h hh.symm
      simp [mapDelete, hk, mapGet, hne, hsym]
    · by_cases hk' : k₀ = k'
      · simp [mapDelete, hk, mapGet, hk', h]
      · simp [mapDelete, hk, mapGet, hk', ih]

theorem mapGet_mapSet_self {α : Type} (m : List (String × CacheEntry α)) (k : String)
    (e : CacheEntry α) : mapGet (mapSet m k e) k = some e := by
  induction m with
  | nil => simp [mapSet, mapGet]
  | cons p t ih =>
    obtain ⟨k₀, e₀⟩ := p
    by_cases hk : k₀ = k
    · simp [mapSet, hk, mapGet]
    · simp [mapSet, hk, mapGet, ih]

theorem mapGet_mapSet_ne {α : Type} (m : List (String × CacheEntry α)) {k k' : String}
    (e : CacheEntry α) (h : k' ≠ k) : mapGet (mapSet m k e) k' = mapGet m k' := by
  induction m with
  | nil =>
    have hne : ¬ k = k' := fun hh => h hh.symm
    simp [mapSet, mapGet, hne]
  | cons p t ih =>
    obtain ⟨k₀, e₀⟩ := p
    by_cases hk : k₀ = k
    · have hne : ¬ k = k' := fun hh => h hh.symm
      have hne₀ : ¬ k₀ = k' := fun hh => h (hh ▸ hk)
      simp [mapSet, hk, mapGet, hne, hne₀]
    · by_cases hk' : k₀ = k'
      · simp [mapSet, hk, mapGet, hk', h]
      · simp [mapSet, hk, mapGet, hk', ih]

theorem keys_mapSet_of_mem {α : Type} {m : List (String × CacheEntry α)} {k : String}
    (e : CacheEntry α) (h : mapGet m k ≠ none) :
    (mapSet m k e).map Prod.fst = m.map Prod.fst := by
  induction m with
  | nil => simp [mapGet] at h
  | cons p t ih =>
    obtain ⟨k₀, e₀⟩ := p
    by_cases hk : k₀ = k
    · subst hk; simp [mapSet]
    · simp [mapGet, hk] at h
      simp [mapSet, hk, ih h]

theorem keys_mapDelete_sublist {α : Type} (m : List (String × CacheEntry α)) (k : String) :
    ((mapDelete m k).map Prod.fst).Sublist (m.map Prod.fst) := by
  induction m with
  | nil => simp [mapDelete]
  | cons p t ih =>
    obtain ⟨k₀, e₀⟩ := p
    by_cases hk : k₀ = k
    · simp only [mapDelete, hk, if_pos rfl, List.map_cons]
      exact (List.sublist_cons_self _ _)
    · simpa [mapDelete, hk] using ih.cons₂ k₀

theorem nodup_keys_mapDelete {α : Type} {m : List (String × CacheEntry α)} (k : String)
    (hnd : (m.map Prod.fst).Nodup) : ((mapDelete m k).map Prod.fst).Nodup :=
  hnd.sublist (keys_mapDelete_sublist m k)

theorem nodup_keys_mapSet {α : Type} {m : List (String × CacheEntry α)} {k : String}
    (e : CacheEntry α) (hnd : (m.map Prod.fst).Nodup) :
    ((mapSet m k e).map Prod.fst).Nodup := by
  cases hget : mapGet m k with
  | none =>
    rw [mapSet_of_absent e hget]
    have hk : k ∉ m.map Prod.fst := (mapGet_eq_none_iff m k).mp hget
    simp only [List.map_append, List.map_cons, List.map_nil]
    refine List.Nodup.append hnd (List.nodup_singleton _) ?_
    simpa [List.disjoint_singleton] using hk
  | some e' =>
    rw [keys_mapSet_of_mem e (by simp [hget])]
    exact hnd

end Masis

namespace Masis

/-! ## Behaviour of `EmbeddingCache.get` and `EmbeddingCache.set` -/

theorem get_absent {α : Type} (c : EmbeddingCache α) (now : ℚ) (key : CacheKey)
    (h : mapGet c.cache (createCacheKey key) = none) :
    c.get now key = (none, c) := by
  simp [EmbeddingCache.get, h]

theorem get_expired {α : Type} (c : EmbeddingCache α) (now : ℚ) (key : CacheKey)
    {e : CacheEntry α} (hfound : mapGet c.cache (createCacheKey key) = some e)
    (hexp : (now - e.createdAt) / 1000 > e.ttl) :
    c.get now key = (none, { c with cache := mapDelete c.cache (createCacheKey key) }) := by
  simp [EmbeddingCache.get, hfound, hexp]

theorem get_fresh {α : Type} (c : EmbeddingCache α) (now : ℚ) (key : CacheKey)
    {e : CacheEntry α} (hfound : mapGet c.cache (createCacheKey key) = some e)
    (hexp : ¬ ((now - e.createdAt) / 1000 > e.ttl)) :
    c.get now key =
      (some e.embedding,
       { c with cache :=
           mapSet (mapDelete c.cache (createCacheKey key)) (createCacheKey key) e }) := by
  simp [EmbeddingCache.get, hfound, hexp]

/-- Claim C8: A `get` on a present entry whose age `(now − createdAt)/1000`
exceeds its own TTL returns a miss and removes the entry, so `size()`
immediately reflects the removal; a `get` on a present, unexpired entry
returns its stored vector. -/
theorem embeddingCache_get_respects_ttl {α : Type} (c : EmbeddingCache α) (now : ℚ)
    (key : CacheKey) (e : CacheEntry α)
    (hwf : (c.cache.map Prod.fst).Nodup)
    (hfound : mapGet c.cache (createCacheKey key) = some e) :
    ((now - e.createdAt) / 1000 > e.ttl →
      (c.get now key).1 = none ∧
      (c.get now key).2.size + 1 = c.size ∧
      mapGet (c.get now key).2.cache (createCacheKey key) = none) ∧
    (¬ ((now - e.createdAt) / 1000 > e.ttl) →
      (c.get now key).1 = some e.embedding) := by
  constructor
  · intro hexp
    rw [get_expired c now key hfound hexp]
    refine ⟨rfl, ?_, ?_⟩
    · simpa [EmbeddingCache.size] using length_mapDelete_of_mem hfound
    · exact mapGet_mapDelete_self hwf
  · intro hfresh
    rw [get_fresh c now key hfound hfresh]

/-- Witness for C8: a one-entry cache (`createdAt = 0`, `ttl = 3600`) read
at `now = 3600001` ms is expired by 1 ms; the `get` misses and removes the
entry. -/
theorem embeddingCache_get_respects_ttl_witness :
    ((3600001 : ℚ) - 0) / 1000 > (3600 : ℚ) ∧
    ((EmbeddingCache.mk [("text:a", CacheEntry.mk 7 0 3600)] 1000 3600 : EmbeddingCache ℕ).get
        3600001 (CacheKey.mk .text "a")).1 = none ∧
    ((EmbeddingCache.mk [("text:a", CacheEntry.mk 7 0 3600)] 1000 3600 : EmbeddingCache ℕ).get
        3600001 (CacheKey.mk .text "a")).2.size + 1 =
      (EmbeddingCache.mk [("text:a", CacheEntry.mk 7 0 3600)] 1000 3600 : EmbeddingCache ℕ).size ∧
    mapGet ((EmbeddingCache.mk [("text:a", CacheEntry.mk 7 0 3600)] 1000 3600 :
        EmbeddingCache ℕ).get 3600001 (CacheKey.mk .text "a")).2.cache
      (createCacheKey (CacheKey.mk .text "a")) = none := by
  have hexp : ((3600001 : ℚ) - 0) / 1000 > (3600 : ℚ) := by norm_num
  have hfound : mapGet
      (EmbeddingCache.mk [("text:a", CacheEntry.mk 7 0 3600)] 1000 3600 :
        EmbeddingCache ℕ).cache (createCacheKey (CacheKey.mk .text "a")) =
      some (CacheEntry.mk 7 0 3600) := by
    simp [mapGet, createCacheKey, CacheKeyType.raw]
  have h := (embeddingCache_get_respects_ttl
      (EmbeddingCache.mk [("text:a", CacheEntry.mk 7 0 3600)] 1000 3600 : EmbeddingCache ℕ)
      3600001 (CacheKey.mk .text "a") (CacheEntry.mk 7 0 3600) (by simp) hfound).1 hexp
  exact ⟨hexp, h.1, h.2.1, h.2.2⟩

end Masis


namespace Masis

/-! ## The cache well-formedness invariant -/

theorem createCacheKey_ne_empty (key : CacheKey) : createCacheKey key ≠ "" := by
  intro h
  have hlen : (createCacheKey key).length = 0 := by rw [h]; rfl
  rw [createCacheKey, String.length_append, String.length_append] at hlen
  have h1 : (":" : String).length = 1 := rfl
  cases htype : key.type <;> rw [htype] at hlen
  · have h4 : (CacheKeyType.raw .text).length = 4 := rfl
    rw [h4, h1] at hlen; omega
  · have h5 : (CacheKeyType.raw .image).length = 5 := rfl
    rw [h5, h1] at hlen; omega

theorem mem_keys_mapSet {α : Type} {m : List (String × CacheEntry α)} {k k' : String}
    {e : CacheEntry α} (h : k' ∈ (mapSet m k e).map Prod.fst) :
    k' ∈ m.map Prod.fst ∨ k' = k := by
  induction m with
  | nil =>
    simp [mapSet] at h
    exact Or.inr h
  | cons p t ih =>
    obtain ⟨k₀, e₀⟩ := p
    by_cases hk : k₀ = k
    · simp [mapSet, hk] at h
      rcases h with h | h
      · exact Or.inr h
      · exact Or.inl (by simp [h])
    · simp [mapSet, hk] at h
      rcases h with h | h
      · exact Or.inl (by simp [h])
      · rcases ih (by simpa using h) with h' | h'
        · exact Or.inl (by simp; exact Or.inr (by simpa using h'))
        · exact Or.inr h'

theorem mapDelete_cons_self {α : Type} (k : String) (e : CacheEntry α)
    (t : List (String × CacheEntry α)) : mapDelete ((k, e) :: t) k = t := by
  simp [mapDelete]

/-- The effect of `set` when the store is at (or above) capacity and the
first key is not the empty string: the first entry is evicted, then the
new entry is stored. -/
theorem set_at_capacity {α : Type} (c : EmbeddingCache α) (now : ℚ) (key : CacheKey)
    (embedding : α) (ttl? : Option ℚ) (k₀ : String) (e₀ : CacheEntry α)
    (t : List (String × CacheEntry α))
    (hcap : c.maxSize ≤ c.cache.length) (hc : c.cache = (k₀, e₀) :: t) (hk₀ : k₀ ≠ "") :
    c.set now key embedding ttl? =
      { c with cache := (mapSet t (createCacheKey key)
          (CacheEntry.mk embedding now (ttl?.getD c.defaultTTL))) } := by
  rw [EmbeddingCache.set]
  rw [hc] at hcap
  rw [hc]
  simp only [if_pos hcap, if_neg hk₀, mapDelete_cons_self]

/-- The effect of `set` when the store is below capacity: no eviction. -/
theorem set_below_capacity {α : Type} (c : EmbeddingCache α) (now : ℚ) (key : CacheKey)
    (embedding : α) (ttl? : Option ℚ)
    (hcap : ¬ c.maxSize ≤ c.cache.length) :
    c.set now key embedding ttl? =
      { c with cache := (mapSet c.cache (createCacheKey key)
          (CacheEntry.mk embedding now (ttl?.getD c.defaultTTL))) } := by
  rw [EmbeddingCache.set]
  simp only [if_neg hcap]

theorem wf_get {α : Type} {c : EmbeddingCache α} (h : CacheWF c) (now : ℚ)
    (key : CacheKey) : CacheWF ((c.get now key).2) := by
  obtain ⟨hnd, hne, hlen, hmax⟩ := h
  cases hm : mapGet c.cache (createCacheKey key) with
  | none => rw [get_absent c now key hm]; exact ⟨hnd, hne, hlen, hmax⟩
  | some e =>
    by_cases hexp : (now - e.createdAt) / 1000 > e.ttl
    · rw [get_expired c now key hm hexp]
      refine ⟨nodup_keys_mapDelete _ hnd, ?_, ?_, hmax⟩
      · intro k hk
        exact hne k ((keys_mapDelete_sublist c.cache _).mem hk)
      · exact le_trans (length_mapDelete_le c.cache _) hlen
    · rw [get_fresh c now key hm hexp]
      refine ⟨nodup_keys_mapSet _ (nodup_keys_mapDelete _ hnd), ?_, ?_, hmax⟩
      · intro k hk
        rcases mem_keys_mapSet hk with hk' | hk'
        · exact hne k ((keys_mapDelete_sublist c.cache _).mem hk')
        · rw [hk']; exact createCacheKey_ne_empty key
      · calc (mapSet (mapDelete c.cache (createCacheKey key)) (createCacheKey key) e).length
            ≤ (mapDelete c.cache (createCacheKey key)).length + 1 :=
              length_mapSet_le _ _ _
          _ = c.cache.length := length_mapDelete_of_mem hm
          _ ≤ c.maxSize := hlen

theorem wf_set {α : Type} {c : EmbeddingCache α} (h : CacheWF c) (now : ℚ)
    (key : CacheKey) (embedding : α) (ttl? : Option ℚ) :
    CacheWF (c.set now key embedding ttl?) := by
  obtain ⟨hnd, hne, hlen, hmax⟩ := h
  by_cases hcap : c.maxSize ≤ c.cache.length
  · have hnonnil : c.cache ≠ [] := by
      intro hnil
      rw [hnil] at hcap
      simp at hcap
      omega
    obtain ⟨p, t, hc⟩ := List.exists_cons_of_ne_nil hnonnil
    obtain ⟨k₀, e₀⟩ := p
    have hk₀ : k₀ ≠ "" := by
      apply hne
      rw [hc]; simp
    rw [set_at_capacity c now key embedding ttl? k₀ e₀ t hcap hc hk₀]
    have hndt : (t.map Prod.fst).Nodup := by
      rw [hc] at hnd
      simpa using ((List.nodup_cons).mp (by simpa using hnd)).2
    refine ⟨nodup_keys_mapSet _ hndt, ?_, ?_, hmax⟩
    · intro k hk
      rcases mem_keys_mapSet hk with hk' | hk'
      · refine hne k ?_
        rw [hc]
        simp only [List.map_cons, List.mem_cons]
        exact Or.inr hk'
      · rw [hk']; exact createCacheKey_ne_empty key
    · calc (mapSet t (createCacheKey key)
            (CacheEntry.mk embedding now (ttl?.getD c.defaultTTL))).length
          ≤ t.length + 1 := length_mapSet_le _ _ _
        _ = c.cache.length := by rw [hc]; rfl
        _ ≤ c.maxSize := hlen
  · rw [set_below_capacity c now key embedding ttl? hcap]
    refine ⟨nodup_keys_mapSet _ hnd, ?_, ?_, hmax⟩
    · intro k hk
      rcases mem_keys_mapSet hk with hk' | hk'
      · exact hne k hk'
      · rw [hk']; exact createCacheKey_ne_empty key
    · calc (mapSet c.cache (createCacheKey key)
            (CacheEntry.mk embedding now (ttl?.getD c.defaultTTL))).length
          ≤ c.cache.length + 1 := length_mapSet_le _ _ _
        _ ≤ c.maxSize := by omega

theorem wf_del {α : Type} {c : EmbeddingCache α} (h : CacheWF c) (key : CacheKey) :
    CacheWF ((c.del key).2) := by
  obtain ⟨hnd, hne, hlen, hmax⟩ := h
  refine ⟨nodup_keys_mapDelete _ hnd, ?_, ?_, hmax⟩
  · intro k hk
    exact hne k ((keys_mapDelete_sublist c.cache _).mem hk)
  · exact le_trans (length_mapDelete_le c.cache _) hlen

theorem wf_clear {α : Type} {c : EmbeddingCache α} (h : CacheWF c) :
    CacheWF c.clear := by
  obtain ⟨_, _, _, hmax⟩ := h
  exact ⟨by simp [EmbeddingCache.clear], by simp [EmbeddingCache.clear],
    by simp [EmbeddingCache.clear], hmax⟩

theorem wf_applyOp {α : Type} {c : EmbeddingCache α} (h : CacheWF c) (op : CacheOp α) :
    CacheWF (applyOp c op) := by
  cases op with
  | get now key => exact wf_get h now key
  | set now key embedding ttl? => exact wf_set h now key embedding ttl?
  | del key => exact wf_del h key
  | clear => exact wf_clear h

theorem runOps_cons {α : Type} (c : EmbeddingCache α) (op : CacheOp α)
    (rest : List (CacheOp α)) : runOps c (op :: rest) = runOps (applyOp c op) rest := rfl

theorem wf_runOps {α : Type} {c : EmbeddingCache α} (h : CacheWF c)
    (ops : List (CacheOp α)) : CacheWF (runOps c ops) := by
  induction ops generalizing c with
  | nil => exact h
  | cons op rest ih => rw [runOps_cons]; exact ih (wf_applyOp h op)

theorem maxSize_applyOp {α : Type} (c : EmbeddingCache α) (op : CacheOp α) :
    (applyOp c op).maxSize = c.maxSize := by
  cases op with
  | get now key =>
    cases hm : mapGet c.cache (createCacheKey key) with
    | none => rw [applyOp, get_absent c now key hm]
    | some e =>
      by_cases hexp : (now - e.createdAt) / 1000 > e.ttl
      · rw [applyOp, get_expired c now key hm hexp]
      · rw [applyOp, get_fresh c now key hm hexp]
  | set now key embedding ttl? =>
    by_cases hcap : c.maxSize ≤ c.cache.length
    · rcases hc : c.cache with _ | ⟨⟨k₀, e₀⟩, t⟩
      · rw [applyOp, EmbeddingCache.set]
      · rw [applyOp, EmbeddingCache.set]
    · rw [applyOp, set_below_capacity c now key embedding ttl? hcap]
  | del key => rfl
  | clear => rfl

theorem maxSize_runOps {α : Type} (c : EmbeddingCache α) (ops : List (CacheOp α)) :
    (runOps c ops).maxSize = c.maxSize := by
  induction ops generalizing c with
  | nil => rfl
  | cons op rest ih => rw [runOps_cons, ih, maxSize_applyOp]

theorem wf_new (α : Type) (maxSize? : Option ℕ) (defaultTTL? : Option ℚ) :
    CacheWF (EmbeddingCache.new α maxSize? defaultTTL?) := by
  refine ⟨by simp [EmbeddingCache.new], by simp [EmbeddingCache.new],
    by simp [EmbeddingCache.new], ?_⟩
  cases maxSize? with
  | none => simp [EmbeddingCache.new]
  | some n =>
    by_cases hn : n = 0
    · simp [EmbeddingCache.new, hn]
    · simp [EmbeddingCache.new, hn]; omega

/-- Claim C9: After any sequence of `get`/`set`/`delete`/`clear` operations
on a cache built by the constructor, `size()` never exceeds the
configured capacity; and every vector a `get` returns comes from the
entry found under the key, whose age at the moment of the read was
checked against that entry's own TTL. -/
theorem embeddingCache_size_bounded_and_get_checked (α : Type) :
    (∀ (maxSize? : Option ℕ) (defaultTTL? : Option ℚ) (ops : List (CacheOp α)),
      (runOps (EmbeddingCache.new α maxSize? defaultTTL?) ops).size ≤
        (EmbeddingCache.new α maxSize? defaultTTL?).maxSize) ∧
    (∀ (c : EmbeddingCache α) (now : ℚ) (key : CacheKey) (v : α),
      (c.get now key).1 = some v →
      ∃ e : CacheEntry α, mapGet c.cache (createCacheKey key) = some e ∧
        v = e.embedding ∧ ¬ ((now - e.createdAt) / 1000 > e.ttl)) := by
  constructor
  · intro maxSize? defaultTTL? ops
    have hwf := wf_runOps (wf_new α maxSize? defaultTTL?) ops
    have hms := maxSize_runOps (EmbeddingCache.new α maxSize? defaultTTL?) ops
    rw [EmbeddingCache.size, ← hms]
    exact hwf.2.2.1
  · intro c now key v hv
    cases hm : mapGet c.cache (createCacheKey key) with
    | none =>
      rw [get_absent c now key hm] at hv
      simp at hv
    | some e =>
      by_cases hexp : (now - e.createdAt) / 1000 > e.ttl
      · rw [get_expired c now key hm hexp] at hv
        simp at hv
      · rw [get_fresh c now key hm hexp] at hv
        have hv' : v = e.embedding := by simpa using hv.symm
        exact ⟨e, rfl, hv', hexp⟩

/-- Witness for C9: the size bound after three inserts into a capacity-2
cache, and the TTL-checked read of a fresh entry. -/
theorem embeddingCache_size_bounded_and_get_checked_witness :
    (runOps (EmbeddingCache.new ℕ (some 2) none)
      [CacheOp.set 0 (CacheKey.mk .text "a") 1 none,
       CacheOp.set 0 (CacheKey.mk .text "b") 2 none,
       CacheOp.set 0 (CacheKey.mk .text "c") 3 none]).size ≤
      (EmbeddingCache.new ℕ (some 2) none).maxSize ∧
    ∃ e : CacheEntry ℕ,
      mapGet (EmbeddingCache.mk [("text:a", CacheEntry.mk 7 0 3600)] 1000 3600).cache
        (createCacheKey (CacheKey.mk .text "a")) = some e ∧
      (7 : ℕ) = e.embedding ∧ ¬ ((1000 - e.createdAt) / 1000 > e.ttl) := by
  constructor
  · exact (embeddingCache_size_bounded_and_get_checked ℕ).1 (some 2) none _
  · apply (embeddingCache_size_bounded_and_get_checked ℕ).2
      (EmbeddingCache.mk [("text:a", CacheEntry.mk 7 0 3600)] 1000 3600) 1000
      (CacheKey.mk .text "a") 7
    have hfound : mapGet
        (EmbeddingCache.mk [("text:a", CacheEntry.mk 7 0 3600)] 1000 3600 :
          EmbeddingCache ℕ).cache (createCacheKey (CacheKey.mk .text "a")) =
        some (CacheEntry.mk 7 0 3600) := by
      simp [mapGet, createCacheKey, CacheKeyType.raw]
    rw [get_fresh _ 1000 _ hfound (by norm_num)]

end Masis

namespace Masis

/-! ## LRU behaviour: touches, eviction order, survival -/

theorem runOps_append {α : Type} (c : EmbeddingCache α) (l₁ l₂ : List (CacheOp α)) :
    runOps c (l₁ ++ l₂) = runOps (runOps c l₁) l₂ := by
  simp [runOps, List.foldl_append]

theorem nodup_keys_append_fresh {α : Type} {m : List (String × CacheEntry α)}
    {k : String} (e : CacheEntry α) (hnd : (m.map Prod.fst).Nodup)
    (hk : k ∉ m.map Prod.fst) : ((m ++ [(k, e)]).map Prod.fst).Nodup := by
  simp only [List.map_append, List.map_cons, List.map_nil]
  exact List.Nodup.append hnd (List.nodup_singleton _)
    (by simpa [List.disjoint_singleton] using hk)

/-- Inserting fresh, pairwise-distinct keys while there is room appends
them in order, with no eviction. -/
theorem runOps_fresh_sets {α : Type} (emb : α) (now : ℚ) :
    ∀ (ks : List CacheKey) (c : EmbeddingCache α),
      (ks.map createCacheKey).Nodup →
      (∀ k ∈ ks, createCacheKey k ∉ c.cache.map Prod.fst) →
      c.cache.length + ks.length ≤ c.maxSize →
      runOps c (ks.map (fun k => CacheOp.set now k emb none)) =
        { c with cache := (c.cache ++
            ks.map (fun k => (createCacheKey k, CacheEntry.mk emb now c.defaultTTL))) } := by
  intro ks
  induction ks with
  | nil => intro c _ _ _; simp [runOps]
  | cons k ks' ih =>
    intro c hnd hfresh hlen
    have hcap : ¬ c.maxSize ≤ c.cache.length := by
      simp only [List.length_cons] at hlen
      omega
    have habs : mapGet c.cache (createCacheKey k) = none :=
      (mapGet_eq_none_iff _ _).mpr (hfresh k (by simp))
    have hnd' : (ks'.map createCacheKey).Nodup := by
      simp only [List.map_cons, List.nodup_cons] at hnd
      exact hnd.2
    have hknotin : createCacheKey k ∉ ks'.map createCacheKey := by
      simp only [List.map_cons, List.nodup_cons] at hnd
      exact hnd.1
    rw [List.map_cons, runOps_cons,
      show applyOp c (CacheOp.set now k emb none) = c.set now k emb none from rfl,
      set_below_capacity c now k emb none hcap, mapSet_of_absent _ habs]
    rw [ih { c with cache := (c.cache ++
        [(createCacheKey k, CacheEntry.mk emb now (Option.getD none c.defaultTTL))]) }
      hnd' ?_ ?_]
    · simp [List.append_assoc]
    · intro k' hk'
      simp only [List.map_append, List.map_cons, List.map_nil, List.mem_append,
        List.mem_singleton]
      rintro (h | h)
      · exact hfresh k' (by simp [hk']) h
      · exact hknotin (h ▸ List.mem_map_of_mem createCacheKey hk')
    · simp only [List.length_cons] at hlen
      simp only [List.length_append, List.length_cons, List.length_nil]
      omega

/-- The key in the middle of the store survives a sequence of fresh
inserts as long as there are at most `maxSize − |B| − 1` of them, where
`B` is the part of the store behind the key (eviction always removes the
front entry). -/
theorem survival_core {α : Type} (emb : α) (now : ℚ) :
    ∀ (ks : List CacheKey) (c : EmbeddingCache α)
      (A B : List (String × CacheEntry α)) (ck₀ : String) (e : CacheEntry α),
      c.cache = A ++ (ck₀, e) :: B →
      (c.cache.map Prod.fst).Nodup →
      (∀ k ∈ c.cache.map Prod.fst, k ≠ "") →
      c.cache.length ≤ c.maxSize →
      (ks.map createCacheKey).Nodup →
      (∀ k ∈ ks, createCacheKey k ∉ c.cache.map Prod.fst) →
      ks.length + B.length + 1 ≤ c.maxSize →
      ck₀ ∈ (runOps c (ks.map (fun k => CacheOp.set now k emb none))).cache.map Prod.fst := by
  intro ks
  induction ks with
  | nil =>
    intro c A B ck₀ e hc _ _ _ _ _ _
    rw [runOps]
    simp [hc]
  | cons k ks' ih =>
    intro c A B ck₀ e hc hnd hne hlen hndk hfresh hbound
    have hnd' : (ks'.map createCacheKey).Nodup := by
      simp only [List.map_cons, List.nodup_cons] at hndk
      exact hndk.2
    have hknotin : createCacheKey k ∉ ks'.map createCacheKey := by
      simp only [List.map_cons, List.nodup_cons] at hndk
      exact hndk.1
    have hkfresh : createCacheKey k ∉ c.cache.map Prod.fst := hfresh k (by simp)
    rw [List.map_cons, runOps_cons,
      show applyOp c (CacheOp.set now k emb none) = c.set now k emb none from rfl]
    by_cases hcap : c.maxSize ≤ c.cache.length
    · -- at capacity: the front entry of `A` is evicted, the new key appended
      have hAlen : 1 ≤ A.length := by
        have h1 : c.cache.length = A.length + B.length + 1 := by
          rw [hc]; simp only [List.length_append, List.length_cons]; omega
        simp only [List.length_cons] at hbound
        omega
      have hAne : A ≠ [] := by
        intro h
        rw [h] at hAlen
        simp at hAlen
      obtain ⟨p, A', hA⟩ := List.exists_cons_of_ne_nil hAne
      obtain ⟨ka, ea⟩ := p
      have hc' : c.cache = (ka, ea) :: (A' ++ (ck₀, e) :: B) := by
        rw [hc, hA]; rfl
      have hka : ka ≠ "" := by
        apply hne
        rw [hc']; simp
      rw [set_at_capacity c now k emb none ka ea (A' ++ (ck₀, e) :: B) hcap hc' hka]
      have htfresh : mapGet (A' ++ (ck₀, e) :: B) (createCacheKey k) = none := by
        rw [mapGet_eq_none_iff]
        intro hmem
        exact hkfresh (by rw [hc']; simp only [List.map_cons, List.mem_cons]; exact Or.inr hmem)
      rw [mapSet_of_absent _ htfresh]
      have hndtail : ((A' ++ (ck₀, e) :: B).map Prod.fst).Nodup := by
        rw [hc'] at hnd
        simp only [List.map_cons, List.nodup_cons] at hnd
        exact hnd.2
      refine ih { c with cache := ((A' ++ (ck₀, e) :: B) ++
          [(createCacheKey k, CacheEntry.mk emb now (Option.getD none c.defaultTTL))]) }
        A' (B ++ [(createCacheKey k, CacheEntry.mk emb now (Option.getD none c.defaultTTL))])
        ck₀ e ?_ ?_ ?_ ?_ hnd' ?_ ?_
      · simp
      · exact nodup_keys_append_fresh _ hndtail
          (fun hmem => hkfresh (by rw [hc']; simp only [List.map_cons, List.mem_cons]
                                   exact Or.inr hmem))
      · intro k' hk'
        simp only [List.map_append, List.map_cons, List.map_nil, List.mem_append,
          List.mem_cons, List.mem_singleton] at hk'
        rcases hk' with hk' | hk' | hk'
        · refine hne k' ?_
          rw [hc']
          simp only [List.map_append, List.map_cons, List.map_nil, List.mem_append,
            List.mem_cons]
          tauto
        · rw [hk']; exact createCacheKey_ne_empty k
        · simp at hk'
      · have h1 : c.cache.length = A'.length + B.length + 2 := by
          rw [hc']; simp only [List.length_append, List.length_cons]; omega
        simp only [List.length_append, List.length_cons, List.length_nil]
        omega
      · intro k' hk' hmem
        simp only [List.map_append, List.map_cons, List.map_nil, List.mem_append,
          List.mem_cons, List.mem_singleton] at hmem
        have horig : createCacheKey k' ∉ List.map Prod.fst c.cache :=
          hfresh k' (by simp [hk'])
        rw [hc'] at horig
        simp only [List.map_append, List.map_cons, List.map_nil, List.mem_append,
          List.mem_cons] at horig
        have hnotk : ¬ createCacheKey k' = createCacheKey k := by
          intro hh
          exact hknotin (hh ▸ List.mem_map_of_mem createCacheKey hk')
        tauto
      · simp only [List.length_cons] at hbound
        simp only [List.length_append, List.length_cons, List.length_nil]
        omega
    · -- below capacity: the new key is appended, nothing is evicted
      rw [set_below_capacity c now k emb none hcap, mapSet_of_absent _
        ((mapGet_eq_none_iff _ _).mpr hkfresh)]
      refine ih { c with cache := (c.cache ++
          [(createCacheKey k, CacheEntry.mk emb now (Option.getD none c.defaultTTL))]) }
        (A) (B ++ [(createCacheKey k, CacheEntry.mk emb now (Option.getD none c.defaultTTL))])
        ck₀ e ?_ ?_ ?_ ?_ hnd' ?_ ?_
      · simp [hc]
      · exact nodup_keys_append_fresh _ hnd hkfresh
      · intro k' hk'
        simp only [List.map_append, List.map_cons, List.map_nil, List.mem_append,
          List.mem_singleton] at hk'
        rcases hk' with h | h
        · exact hne k' h
        · rw [h]; exact createCacheKey_ne_empty k
      · simp only [List.length_append, List.length_cons, List.length_nil]
        omega
      · intro k' hk'
        simp only [List.map_append, List.map_cons, List.map_nil, List.mem_append,
          List.mem_singleton]
        rintro (h | h)
        · exact hfresh k' (by simp [hk']) h
        · exact hknotin (h ▸ List.mem_map_of_mem createCacheKey hk')
      · simp only [List.length_cons] at hbound
        simp only [List.length_append, List.length_cons, List.length_nil]
        omega

end Masis

namespace Masis

/-- Claim C3, amended: Recency in the cache: (A) a `get` of a present,
unexpired key promotes that entry to most-recently-used (it is moved to
the back of the iteration order); (B) a `set` of an existing key below
capacity updates the entry in place and does *not* change the key order
(JS `Map.set` keeps the key's position, so a write is not a recency
touch); (C) inserting `capacity + 1` distinct keys into a fresh cache
evicts exactly the least-recently-touched (first-inserted) entry; (D) a
`get` on a present key immediately followed by insertion of at most
`capacity − 1` other new distinct keys never evicts that key (with
`capacity` new keys the touched key itself can reach the front and be
evicted, so `capacity − 1` is sharp). -/
theorem embeddingCache_lru_recency {α : Type} :
    (∀ (c : EmbeddingCache α) (now : ℚ) (key : CacheKey) (e : CacheEntry α),
      (c.cache.map Prod.fst).Nodup →
      mapGet c.cache (createCacheKey key) = some e →
      ¬ ((now - e.createdAt) / 1000 > e.ttl) →
      (c.get now key).2.cache =
        mapDelete c.cache (createCacheKey key) ++ [(createCacheKey key, e)]) ∧
    (∀ (c : EmbeddingCache α) (now : ℚ) (key : CacheKey) (emb : α) (ttl? : Option ℚ),
      ¬ c.maxSize ≤ c.cache.length →
      mapGet c.cache (createCacheKey key) ≠ none →
      (c.set now key emb ttl?).cache.map Prod.fst = c.cache.map Prod.fst) ∧
    (∀ (maxSize? : Option ℕ) (defaultTTL? : Option ℚ) (ks : List CacheKey)
       (kl : CacheKey) (emb : α) (now : ℚ),
      ks.length = (EmbeddingCache.new α maxSize? defaultTTL?).maxSize →
      ((ks ++ [kl]).map createCacheKey).Nodup →
      (runOps (EmbeddingCache.new α maxSize? defaultTTL?)
          ((ks ++ [kl]).map (fun k => CacheOp.set now k emb none))).cache.map Prod.fst =
        ((ks ++ [kl]).map createCacheKey).tail) ∧
    (∀ (c : EmbeddingCache α) (now : ℚ) (key : CacheKey) (e : CacheEntry α)
       (ks : List CacheKey) (emb : α),
      CacheWF c →
      mapGet c.cache (createCacheKey key) = some e →
      ¬ ((now - e.createdAt) / 1000 > e.ttl) →
      (ks.map createCacheKey).Nodup →
      (∀ k ∈ ks, createCacheKey k ∉ c.cache.map Prod.fst) →
      ks.length + 1 ≤ c.maxSize →
      createCacheKey key ∈
        (runOps (c.get now key).2
          (ks.map (fun k => CacheOp.set now k emb none))).cache.map Prod.fst) := by
  refine ⟨?_, ?_, ?_, ?_⟩
  · -- (A) get promotes to most-recently-used
    intro c now key e hnd hfound hfresh
    rw [get_fresh c now key hfound hfresh]
    exact mapSet_of_absent _ (mapGet_mapDelete_self hnd)
  · -- (B) set of an existing key below capacity keeps the key order
    intro c now key emb ttl? hcap hpresent
    rw [set_below_capacity c now key emb ttl? hcap]
    exact keys_mapSet_of_mem _ hpresent
  · -- (C) capacity + 1 fresh inserts evict exactly the first key
    intro maxSize? defaultTTL? ks kl emb now hlen hnd
    have hwf := wf_new α maxSize? defaultTTL?
    have hmax : 1 ≤ (EmbeddingCache.new α maxSize? defaultTTL?).maxSize := hwf.2.2.2
    have hndks : (ks.map createCacheKey).Nodup := by
      rw [List.map_append] at hnd
      exact (List.nodup_append.mp hnd).1
    have hfill := runOps_fresh_sets emb now ks (EmbeddingCache.new α maxSize? defaultTTL?)
      hndks (by intro k _; simp [EmbeddingCache.new]) (by simp [EmbeddingCache.new, hlen])
    obtain ⟨k₁, ks'', hks⟩ : ∃ k₁ ks'', ks = k₁ :: ks'' := by
      cases ks with
      | nil => rw [List.length_nil] at hlen; omega
      | cons k₁ ks'' => exact ⟨k₁, ks'', rfl⟩
    have hklfresh : createCacheKey kl ∉ ks.map createCacheKey := by
      rw [List.map_append] at hnd
      have hdisj := (List.nodup_append.mp hnd).2.2
      intro hmem
      exact hdisj hmem (by simp)
    obtain ⟨c₁, hc₁⟩ : ∃ c₁, runOps (EmbeddingCache.new α maxSize? defaultTTL?)
        (ks.map (fun k => CacheOp.set now k emb none)) = c₁ := ⟨_, rfl⟩
    have hcache : c₁.cache = ks.map (fun k => (createCacheKey k,
        CacheEntry.mk emb now (EmbeddingCache.new α maxSize? defaultTTL?).defaultTTL)) := by
      rw [← hc₁, hfill]
      simp [EmbeddingCache.new]
    have hmaxc₁ : c₁.maxSize = (EmbeddingCache.new α maxSize? defaultTTL?).maxSize := by
      rw [← hc₁]
      exact maxSize_runOps _ _
    rw [List.map_append, runOps_append, hc₁,
      show [kl].map (fun k => CacheOp.set now k emb none) =
        [CacheOp.set now kl emb none] from rfl,
      show runOps c₁ [CacheOp.set now kl emb none] = c₁.set now kl emb none from rfl]
    have hcap : c₁.maxSize ≤ c₁.cache.length := by
      rw [hmaxc₁, hcache, List.length_map, hlen]
    have hc₁cons : c₁.cache = (createCacheKey k₁,
        CacheEntry.mk emb now (EmbeddingCache.new α maxSize? defaultTTL?).defaultTTL) ::
        ks''.map (fun k => (createCacheKey k,
          CacheEntry.mk emb now (EmbeddingCache.new α maxSize? defaultTTL?).defaultTTL)) := by
      rw [hcache, hks]
      rfl
    rw [set_at_capacity c₁ now kl emb none _ _ _ hcap hc₁cons (createCacheKey_ne_empty k₁)]
    have hklfresh' : mapGet (ks''.map (fun k => (createCacheKey k,
        CacheEntry.mk emb now (EmbeddingCache.new α maxSize? defaultTTL?).defaultTTL)))
        (createCacheKey kl) = none := by
      rw [mapGet_eq_none_iff]
      intro hmem
      apply hklfresh
      rw [hks]
      simp only [List.map_map, Function.comp] at hmem
      simp only [List.map_cons]
      exact List.mem_cons_of_mem _ (by simpa using hmem)
    rw [mapSet_of_absent _ hklfresh']
    rw [hks]
    simp [Function.comp]
  · -- (D) a touched key survives capacity − 1 fresh inserts
    intro c now key e ks emb hwf hfound hfresh hndk hks hbound
    obtain ⟨hnd, hne, hlen, hmax⟩ := hwf
    have hget := get_fresh c now key hfound hfresh
    have hpromoted : (c.get now key).2.cache =
        mapDelete c.cache (createCacheKey key) ++ [(createCacheKey key, e)] := by
      rw [hget]
      exact mapSet_of_absent _ (mapGet_mapDelete_self hnd)
    have hwf' : CacheWF ((c.get now key).2) := wf_get ⟨hnd, hne, hlen, hmax⟩ now key
    have hmaxeq : (c.get now key).2.maxSize = c.maxSize := by rw [hget]
    refine survival_core emb now ks ((c.get now key).2)
      (mapDelete c.cache (createCacheKey key)) [] (createCacheKey key) e
      (by rw [hpromoted]) hwf'.1 hwf'.2.1 hwf'.2.2.1 hndk ?_ ?_
    · intro k hk
      rw [hpromoted]
      simp only [List.map_append, List.map_cons, List.map_nil, List.mem_append,
        List.mem_cons]
      rintro (h | h | h)
      · exact hks k hk ((keys_mapDelete_sublist c.cache _).mem h)
      · have hkey : createCacheKey key ∈ c.cache.map Prod.fst := by
          by_contra hno
          rw [← mapGet_eq_none_iff] at hno
          rw [hno] at hfound
          exact Option.noConfusion hfound
        exact hks k hk (h ▸ hkey)
      · simp at h
    · rw [hmaxeq]
      simp only [List.length_nil]
      omega

end Masis

namespace Masis

/-- Counterexample to C3 as stated: in a capacity-2 cache holding `a` and
`b`, a `get` on `a` genuinely hits (first conjunct), yet inserting
exactly `capacity = 2` other new distinct keys (`c`, then `d`) does evict
`a` (second conjunct), because each insert at capacity evicts the front
entry and after `b` is evicted the touched key `a` itself reaches the
front.  The claim's "must not evict that key" therefore fails. -/
theorem embeddingCache_lru_recency_counterexample :
    ((runOps (EmbeddingCache.new ℕ (some 2) none)
      [CacheOp.set 0 (CacheKey.mk .text "a") 1 none,
       CacheOp.set 0 (CacheKey.mk .text "b") 2 none]).get 0 (CacheKey.mk .text "a")).1 =
      some 1 ∧
    mapGet (runOps (EmbeddingCache.new ℕ (some 2) none)
      [CacheOp.set 0 (CacheKey.mk .text "a") 1 none,
       CacheOp.set 0 (CacheKey.mk .text "b") 2 none,
       CacheOp.get 0 (CacheKey.mk .text "a"),
       CacheOp.set 0 (CacheKey.mk .text "c") 3 none,
       CacheOp.set 0 (CacheKey.mk .text "d") 4 none]).cache
      (createCacheKey (CacheKey.mk .text "a")) = none := by
  have ha : createCacheKey (CacheKey.mk .text "a") = "text:a" := rfl
  have hb : createCacheKey (CacheKey.mk .text "b") = "text:b" := rfl
  have hc : createCacheKey (CacheKey.mk .text "c") = "text:c" := rfl
  have hd : createCacheKey (CacheKey.mk .text "d") = "text:d" := rfl
  have hba : ¬ (("text:b" : String) = "text:a") := by decide
  have hab : ¬ (("text:a" : String) = "text:b") := by decide
  have hac : ¬ (("text:a" : String) = "text:c") := by decide
  have hca : ¬ (("text:c" : String) = "text:a") := by decide
  have hbc : ¬ (("text:b" : String) = "text:c") := by decide
  have hcb : ¬ (("text:c" : String) = "text:b") := by decide
  have had : ¬ (("text:a" : String) = "text:d") := by decide
  have hda : ¬ (("text:d" : String) = "text:a") := by decide
  have hcd : ¬ (("text:c" : String) = "text:d") := by decide
  have hdc : ¬ (("text:d" : String) = "text:c") := by decide
  constructor
  · norm_num [runOps, applyOp, EmbeddingCache.set, EmbeddingCache.get, EmbeddingCache.new,
      mapSet, mapGet, mapDelete, ha, hb, hba, hab]
  · norm_num [runOps, applyOp, EmbeddingCache.set, EmbeddingCache.get, EmbeddingCache.new,
      mapSet, mapGet, mapDelete, ha, hb, hc, hd, hba, hab, hac, hca, hbc, hcb, had, hda,
      hcd, hdc]

/-- Witness for the amended C3: conjunct (C) at capacity 2 with the three
distinct keys `a`, `b`, `c`: the final key order is exactly the last two
keys, the first-inserted key having been evicted. -/
theorem embeddingCache_lru_recency_witness :
    [CacheKey.mk .text "a", CacheKey.mk .text "b"].length =
      (EmbeddingCache.new ℕ (some 2) none).maxSize ∧
    (([CacheKey.mk .text "a", CacheKey.mk .text "b"] ++
        [CacheKey.mk .text "c"]).map createCacheKey).Nodup ∧
    (runOps (EmbeddingCache.new ℕ (some 2) none)
        (([CacheKey.mk .text "a", CacheKey.mk .text "b"] ++ [CacheKey.mk .text "c"]).map
          (fun k => CacheOp.set 0 k (5 : ℕ) none))).cache.map Prod.fst =
      (([CacheKey.mk .text "a", CacheKey.mk .text "b"] ++
        [CacheKey.mk .text "c"]).map createCacheKey).tail := by
  refine ⟨by simp [EmbeddingCache.new], by decide, ?_⟩
  exact (@embeddingCache_lru_recency ℕ).2.2.1 (some 2) none
    [CacheKey.mk .text "a", CacheKey.mk .text "b"] (CacheKey.mk .text "c") 5 0
    (by simp [EmbeddingCache.new]) (by decide)

/-- Claim C4, amended: What `set` evicts: below capacity a `set` evicts
nothing (every other entry is untouched and the key gets the new entry);
at capacity *every* `set` — whether or not the key is already present —
first evicts exactly the entry at the front of the iteration order
(unless that front entry is the key being written itself, in which case
deleting it is part of the overwrite), leaving all other entries' vectors,
creation times and TTLs unchanged.  The original claim's "a set on a
present key never evicts" is refuted by
`embeddingCache_set_eviction_counterexample`. -/
theorem embeddingCache_set_eviction_frame {α : Type} :
    (∀ (c : EmbeddingCache α) (now : ℚ) (key : CacheKey) (emb : α) (ttl? : Option ℚ),
      ¬ c.maxSize ≤ c.cache.length →
      (∀ k' : String, k' ≠ createCacheKey key →
        mapGet (c.set now key emb ttl?).cache k' = mapGet c.cache k') ∧
      mapGet (c.set now key emb ttl?).cache (createCacheKey key) =
        some (CacheEntry.mk emb now (ttl?.getD c.defaultTTL))) ∧
    (∀ (c : EmbeddingCache α) (now : ℚ) (key : CacheKey) (emb : α) (ttl? : Option ℚ)
       (k₀ : String) (e₀ : CacheEntry α) (t : List (String × CacheEntry α)),
      c.maxSize ≤ c.cache.length →
      c.cache = (k₀, e₀) :: t →
      k₀ ≠ "" →
      (c.cache.map Prod.fst).Nodup →
      (∀ k' : String, k' ≠ createCacheKey key → k' ≠ k₀ →
        mapGet (c.set now key emb ttl?).cache k' = mapGet c.cache k') ∧
      (k₀ ≠ createCacheKey key →
        mapGet (c.set now key emb ttl?).cache k₀ = none) ∧
      mapGet (c.set now key emb ttl?).cache (createCacheKey key) =
        some (CacheEntry.mk emb now (ttl?.getD c.defaultTTL))) := by
  constructor
  · intro c now key emb ttl? hcap
    rw [set_below_capacity c now key emb ttl? hcap]
    constructor
    · intro k' hk'
      exact mapGet_mapSet_ne c.cache _ hk'
    · exact mapGet_mapSet_self c.cache _ _
  · intro c now key emb ttl? k₀ e₀ t hcap hc hk₀ hnd
    rw [set_at_capacity c now key emb ttl? k₀ e₀ t hcap hc hk₀]
    refine ⟨?_, ?_, mapGet_mapSet_self t _ _⟩
    · intro k' hk' hk₀'
      rw [mapGet_mapSet_ne t _ hk', hc]
      have hne₀ : ¬ (k₀ = k') := fun h => hk₀' h.symm
      simp [mapGet, hne₀]
    · intro hne
      rw [mapGet_mapSet_ne t _ hne, mapGet_eq_none_iff]
      rw [hc] at hnd
      simp only [List.map_cons, List.nodup_cons] at hnd
      exact hnd.1

/-- Counterexample to C4 as stated: in a capacity-2 cache holding `a` and
`b` (both present, conjuncts 1 and 2), a `set` on the *already present*
key `b` evicts the unrelated entry `a` (conjunct 3), because the code
evicts whenever `size >= maxSize` without checking whether the key is
new. -/
theorem embeddingCache_set_eviction_counterexample :
    (mapGet (runOps (EmbeddingCache.new ℕ (some 2) none)
      [CacheOp.set 0 (CacheKey.mk .text "a") 1 none,
       CacheOp.set 0 (CacheKey.mk .text "b") 2 none]).cache
      (createCacheKey (CacheKey.mk .text "b"))).isSome = true ∧
    (mapGet (runOps (EmbeddingCache.new ℕ (some 2) none)
      [CacheOp.set 0 (CacheKey.mk .text "a") 1 none,
       CacheOp.set 0 (CacheKey.mk .text "b") 2 none]).cache
      (createCacheKey (CacheKey.mk .text "a"))).isSome = true ∧
    mapGet ((runOps (EmbeddingCache.new ℕ (some 2) none)
      [CacheOp.set 0 (CacheKey.mk .text "a") 1 none,
       CacheOp.set 0 (CacheKey.mk .text "b") 2 none]).set 1 (CacheKey.mk .text "b") 5
        none).cache
      (createCacheKey (CacheKey.mk .text "a")) = none := by
  have ha : createCacheKey (CacheKey.mk .text "a") = "text:a" := rfl
  have hb : createCacheKey (CacheKey.mk .text "b") = "text:b" := rfl
  have hba : ¬ (("text:b" : String) = "text:a") := by decide
  have hab : ¬ (("text:a" : String) = "text:b") := by decide
  refine ⟨?_, ?_, ?_⟩ <;>
    norm_num [runOps, applyOp, EmbeddingCache.set, EmbeddingCache.new, mapSet, mapGet,
      mapDelete, ha, hb, hba, hab]

/-- Witness for the amended C4: at capacity 2 with `a` in front, a `set`
on the present key `b` leaves `b` rewritten and evicts exactly `a`. -/
theorem embeddingCache_set_eviction_frame_witness :
    (2 : ℕ) ≤ (EmbeddingCache.mk
      [("text:a", CacheEntry.mk (1 : ℕ) 0 3600), ("text:b", CacheEntry.mk 2 0 3600)]
      2 3600).cache.length ∧
    mapGet ((EmbeddingCache.mk
      [("text:a", CacheEntry.mk (1 : ℕ) 0 3600), ("text:b", CacheEntry.mk 2 0 3600)]
      2 3600).set 1 (CacheKey.mk .text "b") 5 none).cache "text:a" = none ∧
    mapGet ((EmbeddingCache.mk
      [("text:a", CacheEntry.mk (1 : ℕ) 0 3600), ("text:b", CacheEntry.mk 2 0 3600)]
      2 3600).set 1 (CacheKey.mk .text "b") 5 none).cache
      (createCacheKey (CacheKey.mk .text "b")) =
      some (CacheEntry.mk 5 1 ((none : Option ℚ).getD (3600 : ℚ))) := by
  have h := (@embeddingCache_set_eviction_frame ℕ).2
    (EmbeddingCache.mk
      [("text:a", CacheEntry.mk (1 : ℕ) 0 3600), ("text:b", CacheEntry.mk 2 0 3600)] 2 3600)
    1 (CacheKey.mk .text "b") 5 none "text:a" (CacheEntry.mk 1 0 3600)
    [("text:b", CacheEntry.mk 2 0 3600)] (by simp) rfl (by decide) (by decide)
  exact ⟨by simp, h.2.1 (by decide), h.2.2⟩

end Masis

namespace Masis

/-! ## Stage 2 NSFW gating (C1) -/

theorem allowedLevels_eq_specAllowedSet (level : String)
    (hlevel : level = "general" ∨ level = "sensitive" ∨ level = "questionable" ∨
      level = "explicit") : allowedLevels level = specAllowedSet level := by
  rcases hlevel with h | h | h | h <;> subst h <;> rfl

/-- Claim C1: Stage B keeps, in each matched gallery, exactly the images
whose sensitivity label is in the allowed set of the request's determined
level: `general` and `sensitive` share the allowed set
`{general, sensitive}`, while `questionable` and `explicit` are singleton
sets (`specAllowedSet` spells out the spec's bucket table, and the
route's `allowedLevels` agrees with it); the rest of the gallery is
unchanged.  In particular, under a `general` level a `sensitive` image is
kept and an `explicit` image is removed. -/
theorem stage2_keeps_exactly_allowed_levels (level : String)
    (hlevel : level = "general" ∨ level = "sensitive" ∨ level = "questionable" ∨
      level = "explicit") (folder : Folder) :
    (filterFolderImages level folder).images =
      folder.images.filter (fun img => (specAllowedSet level).contains img.nsfwLevel) ∧
    (filterFolderImages level folder).name = folder.name ∧
    (filterFolderImages level folder).matchedCharacterName =
      folder.matchedCharacterName ∧
    specAllowedSet "general" = ["general", "sensitive"] ∧
    specAllowedSet "sensitive" = ["general", "sensitive"] ∧
    specAllowedSet "questionable" = ["questionable"] ∧
    specAllowedSet "explicit" = ["explicit"] ∧
    ("sensitive" ∈ specAllowedSet "general" ∧ "explicit" ∉ specAllowedSet "general") ∧
    stage2Filter level [folder] = [filterFolderImages level folder] := by
  refine ⟨?_, rfl, rfl, rfl, rfl, rfl, rfl, by decide, rfl⟩
  rw [filterFolderImages, allowedLevels_eq_specAllowedSet level hlevel]

/-- Witness for C1: under a determined level of `general`, a `sensitive`
image is kept and an `explicit` image is removed. -/
theorem stage2_keeps_exactly_allowed_levels_witness :
    (("general" : String) = "general" ∨ ("general" : String) = "sensitive" ∨
      ("general" : String) = "questionable" ∨ ("general" : String) = "explicit") ∧
    (filterFolderImages "general"
      (Folder.mk "레이" "레이"
        [Image.mk "i1" [] "sensitive" "u1" "", Image.mk "i2" [] "explicit" "u2" ""])).images =
      [Image.mk "i1" [] "sensitive" "u1" ""] := by
  refine ⟨Or.inl rfl, ?_⟩
  have h := (stage2_keeps_exactly_allowed_levels "general" (Or.inl rfl)
    (Folder.mk "레이" "레이"
      [Image.mk "i1" [] "sensitive" "u1" "", Image.mk "i2" [] "explicit" "u2" ""])).1
  rw [h]
  decide

/-! ## The stable sort and `firstMaxBy` -/

theorem length_insertDesc {α β : Type} [LinearOrder β] (key : α → β) (x : α)
    (s : List α) : (insertDesc key x s).length = s.length + 1 := by
  induction s with
  | nil => rfl
  | cons y ys ih =>
    rw [insertDesc]
    by_cases h : key x < key y
    · simp [h, ih]
    · simp [h]

theorem length_stableSortDesc {α β : Type} [LinearOrder β] (key : α → β)
    (l : List α) : (stableSortDesc key l).length = l.length := by
  induction l with
  | nil => rfl
  | cons x xs ih =>
    rw [stableSortDesc, List.foldr_cons, ← stableSortDesc, length_insertDesc, ih]
    rfl

theorem firstMaxBy_eq_none_iff {α β : Type} [LinearOrder β] (key : α → β)
    (l : List α) : firstMaxBy key l = none ↔ l = [] := by
  cases l with
  | nil => simp [firstMaxBy]
  | cons x xs =>
    simp only [firstMaxBy]
    cases firstMaxBy key xs with
    | none => simp
    | some m =>
      by_cases h : key x < key m <;> simp [h]

theorem head?_stableSortDesc {α β : Type} [LinearOrder β] (key : α → β)
    (l : List α) : (stableSortDesc key l).head? = firstMaxBy key l := by
  induction l with
  | nil => rfl
  | cons x xs ih =>
    rw [stableSortDesc, List.foldr_cons, ← stableSortDesc]
    cases hs : stableSortDesc key xs with
    | nil =>
      have hxs : xs = [] := by
        have hl := length_stableSortDesc key xs
        rw [hs] at hl
        exact List.length_eq_zero.mp hl.symm
      subst hxs
      rfl
    | cons y ys =>
      have hy : firstMaxBy key xs = some y := by
        rw [← ih, hs]
        rfl
      rw [show (x :: xs) = x :: xs from rfl, firstMaxBy, hy, insertDesc]
      by_cases h : key x < key y
      · simp [h, List.head?]
      · simp [h, List.head?]

theorem firstMaxBy_map {α γ β : Type} [LinearOrder β] (key : γ → β) (g : α → γ)
    (l : List α) :
    firstMaxBy key (l.map g) = (firstMaxBy (fun a => key (g a)) l).map g := by
  induction l with
  | nil => rfl
  | cons x xs ih =>
    rw [List.map_cons, firstMaxBy, ih, firstMaxBy]
    cases firstMaxBy (fun a => key (g a)) xs with
    | none => rfl
    | some m =>
      by_cases h : key (g x) < key (g m) <;> simp [h]

theorem firstMaxBy_mem {α β : Type} [LinearOrder β] {key : α → β} {l : List α}
    {m : α} (h : firstMaxBy key l = some m) : m ∈ l := by
  induction l with
  | nil => simp [firstMaxBy] at h
  | cons x xs ih =>
    cases hx : firstMaxBy key xs with
    | none =>
      rw [firstMaxBy, hx] at h
      have h' : some x = some m := h
      simp at h'
      simp [h']
    | some m' =>
      rw [firstMaxBy, hx] at h
      have h' : (if key x < key m' then some m' else some x) = some m := h
      by_cases hk : key x < key m'
      · rw [if_pos hk] at h'
        simp at h'
        exact List.mem_cons_of_mem _ (ih (h' ▸ hx))
      · rw [if_neg hk] at h'
        simp at h'
        simp [h']

theorem firstMaxBy_le {α β : Type} [LinearOrder β] {key : α → β} {l : List α}
    {m : α} (h : firstMaxBy key l = some m) : ∀ a ∈ l, key a ≤ key m := by
  induction l generalizing m with
  | nil => simp [firstMaxBy] at h
  | cons x xs ih =>
    cases hx : firstMaxBy key xs with
    | none =>
      rw [firstMaxBy, hx] at h
      have h' : some x = some m := h
      simp at h'
      have hxs : xs = [] := (firstMaxBy_eq_none_iff key xs).mp hx
      subst hxs
      intro a ha
      simp at ha
      rw [ha, h']
    | some m' =>
      rw [firstMaxBy, hx] at h
      have h' : (if key x < key m' then some m' else some x) = some m := h
      by_cases hk : key x < key m'
      · rw [if_pos hk] at h'
        simp at h'
        subst h'
        intro a ha
        rcases List.mem_cons.mp ha with ha | ha
        · rw [ha]; exact le_of_lt hk
        · exact ih hx a ha
      · rw [if_neg hk] at h'
        simp at h'
        subst h'
        intro a ha
        rcases List.mem_cons.mp ha with ha | ha
        · rw [ha]
        · exact le_trans (ih hx a ha) (not_lt.mp hk)

theorem firstMaxBy_isSome {α β : Type} [LinearOrder β] (key : α → β) {l : List α}
    (h : l ≠ []) : ∃ m, firstMaxBy key l = some m := by
  cases hm : firstMaxBy key l with
  | none => exact absurd ((firstMaxBy_eq_none_iff key l).mp hm) h
  | some m => exact ⟨m, rfl⟩

theorem selectBestMatch_eq_firstMaxBy (folders : List FolderInfo)
    (characterName : String) :
    selectBestMatch folders characterName =
      firstMaxBy (fun f => matchScore f.name characterName) folders := by
  cases folders with
  | nil => rfl
  | cons f fs =>
    rw [selectBestMatch]
    rw [head?_stableSortDesc, firstMaxBy_map]
    rw [Option.map_map]
    have h : ((fun s : ScoredFolder => s.folder) ∘
        (fun folder => ScoredFolder.mk folder (matchScore folder.name characterName))) =
        id := rfl
    rw [h, Option.map_id]
    rfl

end Masis

namespace Masis

/-- Claim C7: For every candidate list and query name, the matcher's
best-match selection returns the first gallery attaining the highest
score under the case-insensitive scoring function (`firstMaxBy` spells
out "highest score, ties broken by input order, first-seen wins"), and
the scoring function takes the claimed values on its four branches
(exact equality 1000; substring containment 900; prefix 850; otherwise
700 plus 50 per shared whitespace-delimited word; minus twice the
absolute length difference in each case).  In particular, matching
`"레이"` against `"레이"` and `"레이 스텔라"` returns the gallery named
exactly `"레이"`. -/
theorem selectBestMatch_highest_score_first :
    (∀ (folders : List FolderInfo) (characterName : String),
      selectBestMatch folders characterName =
        firstMaxBy (fun f => matchScore f.name characterName) folders) ∧
    (∀ folderName characterName : String,
      (toLowerCase folderName = toLowerCase characterName →
        matchScore folderName characterName =
          1000 - 2 * |((toLowerCase folderName).length : ℤ) -
            ((toLowerCase characterName).length : ℤ)|) ∧
      (toLowerCase folderName ≠ toLowerCase characterName →
        charsIncludes (toLowerCase characterName).toList
          (toLowerCase folderName).toList = true →
        matchScore folderName characterName =
          900 - 2 * |((toLowerCase folderName).length : ℤ) -
            ((toLowerCase characterName).length : ℤ)|) ∧
      (toLowerCase folderName ≠ toLowerCase characterName →
        ¬ charsIncludes (toLowerCase characterName).toList
          (toLowerCase folderName).toList = true →
        (toLowerCase characterName).toList.isPrefixOf
          (toLowerCase folderName).toList = true →
        matchScore folderName characterName =
          850 - 2 * |((toLowerCase folderName).length : ℤ) -
            ((toLowerCase characterName).length : ℤ)|) ∧
      (toLowerCase folderName ≠ toLowerCase characterName →
        ¬ charsIncludes (toLowerCase characterName).toList
          (toLowerCase folderName).toList = true →
        ¬ (toLowerCase characterName).toList.isPrefixOf
          (toLowerCase folderName).toList = true →
        matchScore folderName characterName =
          700 + 50 * (sharedWordCount (toLowerCase characterName).toList
            (toLowerCase folderName).toList : ℤ) -
          2 * |((toLowerCase folderName).length : ℤ) -
            ((toLowerCase characterName).length : ℤ)|)) ∧
    selectBestMatch [FolderInfo.mk "1" "레이", FolderInfo.mk "2" "레이 스텔라"] "레이" =
      some (FolderInfo.mk "1" "레이") := by
  refine ⟨selectBestMatch_eq_firstMaxBy, ?_, by rfl⟩
  intro folderName characterName
  refine ⟨?_, ?_, ?_, ?_⟩
  · intro h1
    simp only [matchScore]
    rw [if_pos h1]
  · intro h1 h2
    simp only [matchScore]
    rw [if_neg h1, if_pos h2]
  · intro h1 h2 h3
    simp only [matchScore]
    rw [if_neg h1, if_neg h2, if_pos h3]
  · intro h1 h2 h3
    simp only [matchScore]
    rw [if_neg h1, if_neg h2, if_neg h3]

/-- Witness for C7: the exact-equality branch at a concrete
case-insensitive match, and the concrete `"레이"` selection (restated by
applying the theorem). -/
theorem selectBestMatch_highest_score_first_witness :
    toLowerCase "Rei" = toLowerCase "rei" ∧
    matchScore "Rei" "rei" =
      1000 - 2 * |((toLowerCase "Rei").length : ℤ) -
        ((toLowerCase "rei").length : ℤ)| ∧
    selectBestMatch [FolderInfo.mk "1" "레이"] "레이" =
      firstMaxBy (fun f => matchScore f.name "레이") [FolderInfo.mk "1" "레이"] := by
  refine ⟨by rfl, ?_, selectBestMatch_highest_score_first.1 [FolderInfo.mk "1" "레이"] "레이"⟩
  exact ((selectBestMatch_highest_score_first.2.1 "Rei" "rei").1) (by rfl)

/-- Claim C10: The best-match selection is total on non-empty candidate
lists: it always returns some input folder with maximal score — there is
no minimum-score threshold, and the match is returned even when the best
score is negative (second conjunct: a score of `900 − 2·452 = −4` still
produces a match). -/
theorem selectBestMatch_no_threshold :
    (∀ (folders : List FolderInfo) (characterName : String), folders ≠ [] →
      ∃ f, selectBestMatch folders characterName = some f ∧ f ∈ folders ∧
        ∀ g ∈ folders,
          matchScore g.name characterName ≤ matchScore f.name characterName) ∧
    (matchScore (String.mk ('a' :: List.replicate 452 'b')) "a" < 0 ∧
      selectBestMatch [FolderInfo.mk "1" (String.mk ('a' :: List.replicate 452 'b'))] "a" =
        some (FolderInfo.mk "1" (String.mk ('a' :: List.replicate 452 'b')))) := by
  constructor
  · intro folders characterName h
    obtain ⟨m, hm⟩ := firstMaxBy_isSome (fun f => matchScore f.name characterName) h
    refine ⟨m, ?_, firstMaxBy_mem hm, fun g hg => firstMaxBy_le hm g hg⟩
    rw [selectBestMatch_eq_firstMaxBy, hm]
  · constructor
    · set_option maxRecDepth 4000 in decide
    · set_option maxRecDepth 4000 in decide

/-- Witness for C10: a singleton candidate list is never rejected. -/
theorem selectBestMatch_no_threshold_witness :
    ([FolderInfo.mk "1" "xyzzy"] ≠ ([] : List FolderInfo)) ∧
    ∃ f, selectBestMatch [FolderInfo.mk "1" "xyzzy"] "레이" = some f ∧
      f ∈ [FolderInfo.mk "1" "xyzzy"] ∧
      ∀ g ∈ [FolderInfo.mk "1" "xyzzy"],
        matchScore g.name "레이" ≤ matchScore f.name "레이" := by
  refine ⟨by simp, ?_⟩
  exact selectBestMatch_no_threshold.1 [FolderInfo.mk "1" "xyzzy"] "레이" (by simp)

end Masis

namespace Masis

/-! ## Similarity function properties (C6), over `ℝ` with `Real.sqrt` -/

theorem foldl_add_sq (v : List ℝ) :
    ∀ a : ℝ, v.foldl (fun sum val => sum + val * val) a =
      a + (v.map (fun x => x * x)).sum := by
  induction v with
  | nil => intro a; simp
  | cons x xs ih =>
    intro a
    rw [List.foldl_cons, ih, List.map_cons, List.sum_cons]
    ring

theorem magnitude_eq_sqrt_sumSq (v : List ℝ) :
    computeMagnitude Real.sqrt v = Real.sqrt ((v.map (fun x => x * x)).sum) := by
  rw [computeMagnitude, foldl_add_sq, zero_add]

theorem sumSq_nonneg (v : List ℝ) : 0 ≤ (v.map (fun x => x * x)).sum := by
  apply List.sum_nonneg
  intro x hx
  obtain ⟨y, _, hy⟩ := List.mem_map.mp hx
  rw [← hy]
  exact mul_self_nonneg y

theorem magnitude_eq_zero_iff (v : List ℝ) :
    computeMagnitude Real.sqrt v = 0 ↔ (v.map (fun x => x * x)).sum = 0 := by
  rw [magnitude_eq_sqrt_sumSq, Real.sqrt_eq_zero']
  constructor
  · intro h
    exact le_antisymm h (sumSq_nonneg v)
  · intro h
    rw [h]

theorem sum_map_eq_range (g : ℝ → ℝ) (a : List ℝ) :
    (a.map g).sum = ∑ i in Finset.range a.length, g (a.getD i 0) := by
  induction a with
  | nil => simp
  | cons x xs ih =>
    rw [List.map_cons, List.sum_cons, ih, List.length_cons, Finset.sum_range_succ']
    simp only [List.getD_cons_succ, List.getD_cons_zero]
    rw [add_comm]

theorem zipWith_sum_eq_range (a : List ℝ) :
    ∀ b : List ℝ, a.length = b.length →
      (List.zipWith (· * ·) a b).sum =
        ∑ i in Finset.range a.length, a.getD i 0 * b.getD i 0 := by
  induction a with
  | nil => intro b h; simp
  | cons x xs ih =>
    intro b h
    cases b with
    | nil => simp at h
    | cons y ys =>
      simp only [List.length_cons, Nat.succ.injEq] at h
      rw [List.zipWith_cons_cons, List.sum_cons, ih ys h, List.length_cons,
        Finset.sum_range_succ']
      simp only [List.getD_cons_succ, List.getD_cons_zero]
      rw [add_comm]

/-- Cauchy–Schwarz for the list dot product. -/
theorem list_inner_sq_le (a b : List ℝ) (h : a.length = b.length) :
    ((List.zipWith (· * ·) a b).sum) ^ 2 ≤
      ((a.map (fun x => x * x)).sum) * ((b.map (fun x => x * x)).sum) := by
  have hcs := Finset.sum_mul_sq_le_sq_mul_sq (Finset.range a.length)
    (fun i => a.getD i 0) (fun i => b.getD i 0)
  simp only [pow_two] at hcs ⊢
  rw [zipWith_sum_eq_range a b h, sum_map_eq_range, sum_map_eq_range, h]
  rw [← h]
  exact hcs

theorem cosineSimilarity_ok_of_length_eq (a b : List ℝ) (h : a.length = b.length) :
    computeCosineSimilarity Real.sqrt a b =
      .ok (cosineSimilarityValue Real.sqrt a b) := by
  rw [computeCosineSimilarity, cosineSimilarityValue]
  rw [if_neg (by omega : ¬ a.length ≠ b.length)]
  by_cases hm : computeMagnitude Real.sqrt a = 0 ∨ computeMagnitude Real.sqrt b = 0
  · rw [if_pos hm, if_pos hm]
  · rw [if_neg hm, if_neg hm, computeDotProduct,
      if_neg (by omega : ¬ a.length ≠ b.length)]

/-- Claim C6: `computeCosineSimilarity` (i) throws a dimension-mismatch
error exactly when the lengths differ; (ii) returns 0 when either
magnitude is exactly 0; (iii) otherwise returns `max 0 (dot/(|a|·|b|))`;
(iv) every returned value lies in `[0, 1]`; and (v) the similarity of a
vector with itself is 1 whenever its magnitude is nonzero.  (JavaScript
numbers are idealised as real numbers and `Math.sqrt` as `Real.sqrt`.) -/
theorem cosineSimilarity_spec :
    (∀ a b : List ℝ,
      (∃ msg, computeCosineSimilarity Real.sqrt a b = .error msg) ↔
        a.length ≠ b.length) ∧
    (∀ a b : List ℝ, a.length = b.length →
      computeMagnitude Real.sqrt a = 0 ∨ computeMagnitude Real.sqrt b = 0 →
      computeCosineSimilarity Real.sqrt a b = .ok 0) ∧
    (∀ a b : List ℝ, a.length = b.length →
      ¬ (computeMagnitude Real.sqrt a = 0 ∨ computeMagnitude Real.sqrt b = 0) →
      computeCosineSimilarity Real.sqrt a b =
        .ok (max 0 ((List.zipWith (· * ·) a b).sum /
          (computeMagnitude Real.sqrt a * computeMagnitude Real.sqrt b)))) ∧
    (∀ (a b : List ℝ) (v : ℝ),
      computeCosineSimilarity Real.sqrt a b = .ok v → 0 ≤ v ∧ v ≤ 1) ∧
    (∀ a : List ℝ, computeMagnitude Real.sqrt a ≠ 0 →
      computeCosineSimilarity Real.sqrt a a = .ok 1) := by
  have hval : ∀ (a b : List ℝ), a.length = b.length →
      0 ≤ cosineSimilarityValue Real.sqrt a b ∧
        cosineSimilarityValue Real.sqrt a b ≤ 1 := by
    intro a b h
    rw [cosineSimilarityValue]
    by_cases hm : computeMagnitude Real.sqrt a = 0 ∨ computeMagnitude Real.sqrt b = 0
    · rw [if_pos hm]
      norm_num
    · rw [if_neg hm]
      push_neg at hm
      have hA : 0 < computeMagnitude Real.sqrt a :=
        lt_of_le_of_ne (by rw [magnitude_eq_sqrt_sumSq]; exact Real.sqrt_nonneg _)
          (Ne.symm hm.1)
      have hB : 0 < computeMagnitude Real.sqrt b :=
        lt_of_le_of_ne (by rw [magnitude_eq_sqrt_sumSq]; exact Real.sqrt_nonneg _)
          (Ne.symm hm.2)
      constructor
      · exact le_max_left 0 _
      · rw [max_le_iff]
        refine ⟨by norm_num, ?_⟩
        rw [div_le_one (mul_pos hA hB)]
        have hcs := list_inner_sq_le a b h
        calc (List.zipWith (· * ·) a b).sum
            ≤ |(List.zipWith (· * ·) a b).sum| := le_abs_self _
          _ = Real.sqrt (((List.zipWith (· * ·) a b).sum) ^ 2) :=
              (Real.sqrt_sq_eq_abs _).symm
          _ ≤ Real.sqrt (((a.map (fun x => x * x)).sum) *
                ((b.map (fun x => x * x)).sum)) := Real.sqrt_le_sqrt hcs
          _ = computeMagnitude Real.sqrt a * computeMagnitude Real.sqrt b := by
              rw [magnitude_eq_sqrt_sumSq, magnitude_eq_sqrt_sumSq]
              exact Real.sqrt_mul (sumSq_nonneg a) _
  refine ⟨?_, ?_, ?_, ?_, ?_⟩
  · intro a b
    constructor
    · rintro ⟨msg, hmsg⟩
      by_contra hlen
      rw [cosineSimilarity_ok_of_length_eq a b hlen] at hmsg
      exact Except.noConfusion hmsg
    · intro hlen
      refine ⟨"Embedding dimensions must match: " ++ toString a.length ++ " vs "
        ++ toString b.length, ?_⟩
      rw [computeCosineSimilarity, if_pos hlen]
  · intro a b h hm
    rw [cosineSimilarity_ok_of_length_eq a b h, cosineSimilarityValue]
    rw [if_pos hm]
  · intro a b h hm
    rw [cosineSimilarity_ok_of_length_eq a b h, cosineSimilarityValue, if_neg hm]
  · intro a b v hok
    by_cases hlen : a.length = b.length
    · rw [cosineSimilarity_ok_of_length_eq a b hlen] at hok
      have hv : v = cosineSimilarityValue Real.sqrt a b := by
        injection hok.symm
      rw [hv]
      exact hval a b hlen
    · rw [computeCosineSimilarity, if_pos hlen] at hok
      exact Except.noConfusion hok
  · intro a hmag
    rw [cosineSimilarity_ok_of_length_eq a a rfl, cosineSimilarityValue]
    rw [if_neg (by tauto : ¬ (computeMagnitude Real.sqrt a = 0 ∨
      computeMagnitude Real.sqrt a = 0))]
    have hA : (a.map (fun x => x * x)).sum ≠ 0 := by
      intro h0
      exact hmag ((magnitude_eq_zero_iff a).mpr h0)
    have hdot : (List.zipWith (· * ·) a a).sum = (a.map (fun x => x * x)).sum := by
      rw [List.zipWith_same]
    have hmm : computeMagnitude Real.sqrt a * computeMagnitude Real.sqrt a =
        (a.map (fun x => x * x)).sum := by
      rw [magnitude_eq_sqrt_sumSq]
      exact Real.mul_self_sqrt (sumSq_nonneg a)
    rw [hdot, hmm, div_self hA]
    norm_num

/-- Witness for C6: the self-similarity of `[3, 4]` (magnitude
`√25 = 5 ≠ 0`) is exactly 1. -/
theorem cosineSimilarity_spec_witness :
    computeMagnitude Real.sqrt [(3 : ℝ), 4] ≠ 0 ∧
    computeCosineSimilarity Real.sqrt [(3 : ℝ), 4] [(3 : ℝ), 4] = .ok 1 := by
  have hmag : computeMagnitude Real.sqrt [(3 : ℝ), 4] ≠ 0 := by
    rw [magnitude_eq_sqrt_sumSq]
    rw [show (([(3 : ℝ), 4].map (fun x => x * x)).sum) = 25 by norm_num]
    rw [Real.sqrt_ne_zero']
    norm_num
  exact ⟨hmag, cosineSimilarity_spec.2.2.2.2 [(3 : ℝ), 4] hmag⟩

end Masis

namespace Masis

/-! ## Stage 2.5: CLIP narrowing to the top 10 (C2) -/

theorem cosineSimilarityValue_nonneg (a b : List ℝ) :
    0 ≤ cosineSimilarityValue Real.sqrt a b := by
  rw [cosineSimilarityValue]
  by_cases hm : computeMagnitude Real.sqrt a = 0 ∨ computeMagnitude Real.sqrt b = 0
  · rw [if_pos hm]
  · rw [if_neg hm]
    exact le_max_left 0 _

theorem map_image_of_mk (f : Image → ℝ) (l : List Image) :
    ((l.map (fun img => ImageSimilarity.mk img._id (f img) img)).map
      (fun s => s.image)) = l := by
  induction l with
  | nil => rfl
  | cons x xs ih => simp [ih]

theorem map_similarity_of_mk (f : Image → ℝ) (l : List Image) :
    ((l.map (fun img => ImageSimilarity.mk img._id (f img) img)).map
      (fun s => s.similarity)) = l.map f := by
  induction l with
  | nil => rfl
  | cons x xs ih => simp [ih]

theorem zip_self_map (f : Image → ℝ) (l : List Image) :
    l.zip (l.map f) = l.map (fun a => (a, f a)) := by
  induction l with
  | nil => rfl
  | cons x xs ih => simp [ih]

theorem map_image_of_pair_mk (l : List (Image × ℝ)) :
    ((l.map (fun p => ImageSimilarity.mk p.1._id p.2 p.1)).map (fun s => s.image)) =
      l.map Prod.fst := by
  induction l with
  | nil => rfl
  | cons x xs ih => simp [ih]

/-- Under the claim's assumptions (every image has a URL, every embedding
fetch succeeds, and the embeddings match the query's dimension, with
`minSimilarity = 0`), the per-image loop keeps every image with its
cosine similarity. -/
theorem collectSimilarities_all_ok (embedOf : String → Option (List ℝ))
    (t : List ℝ) (embv : Image → List ℝ) :
    ∀ images : List Image,
      (∀ img ∈ images, imageUrlOf img ≠ "" ∧
        embedOf (imageUrlOf img) = some (embv img) ∧ (embv img).length = t.length) →
      collectSimilarities Real.sqrt embedOf t 0 images =
        .ok (images.map (fun img => ImageSimilarity.mk img._id
          (cosineSimilarityValue Real.sqrt t (embv img)) img)) := by
  intro images
  induction images with
  | nil => intro _; rfl
  | cons img rest ih =>
    intro h
    obtain ⟨hurl, hemb, hlen⟩ := h img (by simp)
    rw [collectSimilarities]
    simp only [if_neg hurl, hemb, cosineSimilarity_ok_of_length_eq t (embv img) hlen.symm,
      ih (fun i hi => h i (List.mem_cons_of_mem _ hi)),
      if_pos (cosineSimilarityValue_nonneg t (embv img)), List.map_cons]

/-- Claim C2: Stage 2.5 per folder: a folder with at most 10 images skips
CLIP filtering entirely unchanged (a gallery of 5 stays 5); a folder with
more than 10 images — assuming the scene-query embedding was obtained and
every image embedding fetch succeeds with matching dimensions — has its
images replaced by exactly the first 10 of the stable descending sort by
cosine similarity to the query embedding (a gallery of 15 becomes 10),
with the rest of the folder unchanged. -/
theorem stage25_narrows_to_top10 :
    (∀ (embedOf : String → Option (List ℝ)) (textEmbedding? : Option (List ℝ))
       (folder : Folder), folder.images.length ≤ 10 →
      stage25Folder Real.sqrt embedOf textEmbedding? folder = folder) ∧
    (∀ (embedOf : String → Option (List ℝ)) (t : List ℝ) (embv : Image → List ℝ)
       (folder : Folder),
      10 < folder.images.length →
      (∀ img ∈ folder.images, imageUrlOf img ≠ "" ∧
        embedOf (imageUrlOf img) = some (embv img) ∧ (embv img).length = t.length) →
      (stage25Folder Real.sqrt embedOf (some t) folder).images =
        ((stableSortDesc Prod.snd (folder.images.map
          (fun img => (img, cosineSimilarityValue Real.sqrt t (embv img))))).map
            Prod.fst).take 10 ∧
      (stage25Folder Real.sqrt embedOf (some t) folder).images.length = 10 ∧
      (stage25Folder Real.sqrt embedOf (some t) folder).name = folder.name ∧
      (stage25Folder Real.sqrt embedOf (some t) folder).matchedCharacterName =
        folder.matchedCharacterName) := by
  constructor
  · intro embedOf textEmbedding? folder h
    rw [stage25Folder, if_pos h]
  · intro embedOf t embv folder h10 hok
    have hsims := collectSimilarities_all_ok embedOf t embv folder.images hok
    have hitems := map_image_of_mk (fun img => cosineSimilarityValue Real.sqrt t (embv img))
      folder.images
    have hscores := map_similarity_of_mk
      (fun img => cosineSimilarityValue Real.sqrt t (embv img)) folder.images
    have hsortok : sortBySimilarity
        ((folder.images.map (fun img => ImageSimilarity.mk img._id
          (cosineSimilarityValue Real.sqrt t (embv img)) img)).map (fun s => s.image))
        ((folder.images.map (fun img => ImageSimilarity.mk img._id
          (cosineSimilarityValue Real.sqrt t (embv img)) img)).map
          (fun s => s.similarity)) =
        .ok (stableSortDesc Prod.snd (folder.images.map
          (fun img => (img, cosineSimilarityValue Real.sqrt t (embv img))))) := by
      rw [sortBySimilarity, if_neg (by rw [hitems, hscores]; simp)]
      rw [hitems, hscores, zip_self_map]
    have hfilter : filterImagesBySimilarity Real.sqrt embedOf (some t) folder.images 10 0 =
        ClipFilterResult.mk true
          (((stableSortDesc Prod.snd (folder.images.map
            (fun img => (img, cosineSimilarityValue Real.sqrt t (embv img))))).take 10).map
            (fun p => ImageSimilarity.mk p.1._id p.2 p.1))
          (folder.images.map (fun img => ImageSimilarity.mk img._id
            (cosineSimilarityValue Real.sqrt t (embv img)) img)).length none := by
      simp only [filterImagesBySimilarity, hsims, hsortok]
    have hsortlen : (stableSortDesc Prod.snd (folder.images.map
        (fun img => (img, cosineSimilarityValue Real.sqrt t (embv img))))).length =
        folder.images.length := by
      rw [length_stableSortDesc, List.length_map]
    have htoplen : ((((stableSortDesc Prod.snd (folder.images.map
        (fun img => (img, cosineSimilarityValue Real.sqrt t (embv img))))).take 10).map
        (fun p => ImageSimilarity.mk p.1._id p.2 p.1))).length = 10 := by
      rw [List.length_map, List.length_take, hsortlen]
      omega
    have hne : (((stableSortDesc Prod.snd (folder.images.map
        (fun img => (img, cosineSimilarityValue Real.sqrt t (embv img))))).take 10).map
        (fun p => ImageSimilarity.mk p.1._id p.2 p.1)) ≠ [] := by
      intro hnil
      rw [hnil] at htoplen
      simp at htoplen
    obtain ⟨x, xs, hxx⟩ := List.exists_cons_of_ne_nil hne
    have hstage : stage25Folder Real.sqrt embedOf (some t) folder =
        { folder with images := ((((stableSortDesc Prod.snd (folder.images.map
            (fun img => (img, cosineSimilarityValue Real.sqrt t (embv img))))).take 10).map
            (fun p => ImageSimilarity.mk p.1._id p.2 p.1)).map (fun item => item.image)) } := by
      rw [stage25Folder, if_neg (by omega : ¬ folder.images.length ≤ 10)]
      rw [hfilter, hxx]
      rw [if_pos (by rfl)]
    rw [hstage]
    refine ⟨?_, ?_, rfl, rfl⟩
    · rw [map_image_of_pair_mk, List.map_take]
    · rw [map_image_of_pair_mk, List.map_take, List.length_take, List.length_map, hsortlen]
      omega

/-- Witness for C2: eleven one-dimensional images, all embedded as `[1]`
with query embedding `[1]`, are narrowed to exactly the top 10; the
conclusion is obtained by applying the theorem at this input. -/
theorem stage25_narrows_to_top10_witness :
    (10 < ((List.range 11).map (fun i =>
      Image.mk (toString i) [] "general" "u" "")).length) ∧
    ((stage25Folder Real.sqrt (fun _ => some [(1 : ℝ)]) (some [(1 : ℝ)])
      (Folder.mk "f" "c" ((List.range 11).map (fun i =>
        Image.mk (toString i) [] "general" "u" "")))).images.length = 10) := by
  have himg : ∀ img ∈ (List.range 11).map (fun i =>
      Image.mk (toString i) [] "general" "u" ""),
      imageUrlOf img ≠ "" ∧
      (fun _ : String => some [(1 : ℝ)]) (imageUrlOf img) = some ((fun _ : Image => [(1 : ℝ)]) img) ∧
      ((fun _ : Image => [(1 : ℝ)]) img).length = [(1 : ℝ)].length := by
    intro img hmem
    obtain ⟨i, _, hi⟩ := List.mem_map.mp hmem
    refine ⟨?_, rfl, rfl⟩
    rw [← hi]
    simp [imageUrlOf]
  have h10 : 10 < ((List.range 11).map (fun i =>
      Image.mk (toString i) [] "general" "u" "")).length := by
    rw [List.length_map, List.length_range]
    omega
  exact ⟨h10, (stage25_narrows_to_top10.2 (fun _ => some [(1 : ℝ)]) [(1 : ℝ)]
    (fun _ => [(1 : ℝ)])
    (Folder.mk "f" "c" ((List.range 11).map (fun i =>
      Image.mk (toString i) [] "general" "u" ""))) h10 himg).2.1⟩

end Masis

namespace Masis

/-! ## Stage 3 prompt: zero-image folders are still sent (C5) -/

theorem isPrefixOf_append_self (needle suf : List Char) :
    needle.isPrefixOf (needle ++ suf) = true := by
  induction needle with
  | nil => simp [List.isPrefixOf]
  | cons c t ih => simp [List.isPrefixOf, ih]

theorem charsIncludes_of_parts (needle : List Char) :
    ∀ (pre suf hay : List Char), hay = pre ++ needle ++ suf →
      charsIncludes needle hay = true := by
  intro pre
  induction pre with
  | nil =>
    intro suf hay h
    cases hh : needle ++ suf with
    | nil =>
      have hn : needle = [] := (List.append_eq_nil.mp hh).1
      have hs : suf = [] := (List.append_eq_nil.mp hh).2
      rw [h, hn, hs]
      rfl
    | cons c t =>
      rw [h]
      simp only [List.nil_append]
      rw [hh, charsIncludes, ← hh, isPrefixOf_append_self]
      rfl
  | cons p ps ih =>
    intro suf hay h
    rw [h]
    simp only [List.cons_append]
    rw [charsIncludes, ih suf _ rfl]
    simp

theorem joinSep_mem_parts (sep : String) :
    ∀ (l : List String) (s : String), s ∈ l →
      ∃ pre suf : List Char, (joinSep sep l).data = pre ++ s.data ++ suf := by
  intro l
  induction l with
  | nil => intro s h; simp at h
  | cons a rest ih =>
    intro s h
    rcases List.mem_cons.mp h with h | h
    · subst h
      cases rest with
      | nil => exact ⟨[], [], by simp [joinSep]⟩
      | cons b bs =>
        refine ⟨[], (sep ++ joinSep sep (b :: bs)).data, ?_⟩
        simp [joinSep, String.data_append, List.append_assoc]
    · cases rest with
      | nil => simp at h
      | cons b bs =>
        obtain ⟨pre, suf, hps⟩ := ih s h
        refine ⟨(a ++ sep).data ++ pre, suf, ?_⟩
        simp [joinSep, String.data_append, hps, List.append_assoc]

/-- Claim C5, amended: Entities whose matched gallery has zero candidate
images after stage 2.5 are *not* excluded from the final-selection
(stage 3) collaborator call: every folder of the list — zero-image or
not — contributes its block (with its character name) to the prompt, and
the prompt instructs the collaborator itself to report characters with 0
images as `unmatched`. -/
theorem stage3_prompt_includes_zero_image_folders :
    (∀ (text : String) (folders : List Folder) (scene : SceneAnalysis) (f : Folder),
      f ∈ folders →
      ∃ pre suf : List Char,
        (buildUnifiedPrompt text folders scene).data =
          pre ++ (folderBlock f).data ++ suf) ∧
    (∀ (text : String) (folders : List Folder) (scene : SceneAnalysis),
      ∃ pre suf : List Char,
        (buildUnifiedPrompt text folders scene).data =
          pre ++ unmatchedInstruction.data ++ suf) ∧
    (∀ (text : String) (folders : List Folder) (scene : SceneAnalysis) (f : Folder),
      f ∈ folders →
      charsIncludes (folderBlock f).data
        (buildUnifiedPrompt text folders scene).data = true) := by
  have h1 : ∀ (text : String) (folders : List Folder) (scene : SceneAnalysis) (f : Folder),
      f ∈ folders →
      ∃ pre suf : List Char,
        (buildUnifiedPrompt text folders scene).data =
          pre ++ (folderBlock f).data ++ suf := by
    intro text folders scene f hf
    obtain ⟨pre, suf, hps⟩ := joinSep_mem_parts "\n\n" (folders.map folderBlock)
      (folderBlock f) (List.mem_map_of_mem folderBlock hf)
    refine ⟨(promptHeader scene).data ++ pre,
      suf ++ (promptFooterA.data ++ (unmatchedInstruction.data ++ promptFooterB.data)), ?_⟩
    simp [buildUnifiedPrompt, String.data_append, hps, List.append_assoc]
  refine ⟨h1, ?_, ?_⟩
  · intro text folders scene
    refine ⟨(promptHeader scene).data ++
      (joinSep "\n\n" (folders.map folderBlock)).data ++ promptFooterA.data,
      promptFooterB.data, ?_⟩
    simp [buildUnifiedPrompt, String.data_append, List.append_assoc]
  · intro text folders scene f hf
    obtain ⟨pre, suf, hps⟩ := h1 text folders scene f hf
    exact charsIncludes_of_parts (folderBlock f).data pre suf _ hps

/-- Counterexample to C5 as stated: a folder with zero candidate images
is still included in the stage-3 collaborator invocation — its character
name appears in the prompt (the prompt text contains
`Character: "Rei"` for the zero-image folder `Rei`). -/
theorem stage3_prompt_zero_image_counterexample :
    (Folder.mk "F" "Rei" []).images.length = 0 ∧
    ∃ pre suf : List Char,
      (buildUnifiedPrompt "hi" [Folder.mk "F" "Rei" []]
        (SceneAnalysis.mk "sum" "general" "why")).data =
        pre ++ ("Character: \"Rei\"" : String).data ++ suf := by
  refine ⟨rfl, (promptHeader (SceneAnalysis.mk "sum" "general" "why")).data,
    (" (Folder: \"F\")\n  Total Images: 0\n\n" : String).data ++
      (promptFooterA.data ++ (unmatchedInstruction.data ++ promptFooterB.data)), ?_⟩
  have htos : (toString (0 : ℕ)).data = ['0'] := rfl
  simp [buildUnifiedPrompt, folderBlock, joinSep, String.data_append, List.append_assoc,
    htos]

/-- Witness for the amended C5: the zero-image folder `Rei` contributes
its block to the concrete prompt. -/
theorem stage3_prompt_includes_zero_image_folders_witness :
    (Folder.mk "F" "Rei" [] ∈ [Folder.mk "F" "Rei" []]) ∧
    ∃ pre suf : List Char,
      (buildUnifiedPrompt "hi" [Folder.mk "F" "Rei" []]
        (SceneAnalysis.mk "sum" "general" "why")).data =
        pre ++ (folderBlock (Folder.mk "F" "Rei" [])).data ++ suf := by
  refine ⟨by simp, ?_⟩
  exact stage3_prompt_includes_zero_image_folders.1 "hi" [Folder.mk "F" "Rei" []]
    (SceneAnalysis.mk "sum" "general" "why") (Folder.mk "F" "Rei" []) (by simp)

end Masis
